import Mathlib

/-!
Verification of the mailbot data-normalization and field-reconciliation
pipeline.  The JavaScript sources (`js/data-importer.js`, `js/message-engine.js`,
`simple_app.js`) are embedded shallowly: strings are `List Char`, JS values
appearing in spreadsheet cells are `JVal` (numeric cells are modelled as
integers), JS objects are association lists with JS insertion-order key
semantics, and the concrete regular expressions used by the code are embedded
as explicit executable scanners with JS leftmost-match semantics.
The host-provided `new Date(string)` parser, which is implementation defined
in JavaScript, is passed around as an explicit parameter.
-/

set_option maxHeartbeats 1000000

/-- A JavaScript value as it occurs in parsed spreadsheet data: a string, a
number (modelled as an integer: the importer's serial dates and cell values of
interest are integral), or null/undefined. -/
inductive JVal where
  | vstr (s : List Char)
  | vnum (n : Int)
  | vnull
deriving DecidableEq

/-- JS whitespace characters relevant to `trim`, `\s` and friends (ASCII
subset). -/
def isWsChar (c : Char) : Bool :=
  c = ' ' || c = '\t' || c = '\n' || c = '\r' || c = '\x0b' || c = '\x0c'

/-- JS `String.prototype.trim`. -/
def jsTrim (s : List Char) : List Char :=
  ((s.dropWhile isWsChar).reverse.dropWhile isWsChar).reverse

/-- JS `String.prototype.toLowerCase` (ASCII behaviour). -/
def toLowerJS (s : List Char) : List Char := s.map Char.toLower

/-- JS `\w` word character: `[A-Za-z0-9_]`. -/
def isWordChar (c : Char) : Bool := c.isAlphanum || c = '_'

/-- Decimal rendering of an integer, as JS `String(n)` for integral numbers. -/
def intToStr (n : Int) : List Char := (toString n).toList

/-- Decimal rendering of a natural number. -/
def natToStr (n : Nat) : List Char := (toString n).toList

/-- JS `String(value)` on a cell value (`String(null) = "null"`). -/
def jvalToStr : JVal → List Char
  | .vstr s => s
  | .vnum n => intToStr n
  | .vnull => "null".toList

/-- JS truthiness of a cell value. -/
def jvalTruthy : JVal → Bool
  | .vstr s => !s.isEmpty
  | .vnum n => n != 0
  | .vnull => false

/-- Substring test: does `pat` occur contiguously inside `s`?  (JS
`String.prototype.includes`.) -/
def containsSub (pat : List Char) : List Char → Bool
  | [] => pat.isEmpty
  | c :: cs => pat.isPrefixOf (c :: cs) || containsSub pat cs

/-! ### CustomerDataImporter (js/data-importer.js) -/

/-- The regex replace `\s+` → `' '`: each maximal whitespace run becomes a
single space.  The flag records whether the previous character was part of a
whitespace run already emitted. -/
def collapseWsAux (prevWs : Bool) : List Char → List Char
  | [] => []
  | c :: cs =>
    if isWsChar c then
      if prevWs then collapseWsAux true cs else ' ' :: collapseWsAux true cs
    else c :: collapseWsAux false cs

/-- `cleanHeader`'s `.replace(/\s+/g,' ')`. -/
def collapseWs (s : List Char) : List Char := collapseWsAux false s

/-- `cleanHeader`'s character filter `[^\w\s-]` removal. -/
def stripSpecial (s : List Char) : List Char :=
  s.filter (fun c => isWordChar c || isWsChar c || c = '-')

/-- `CustomerDataImporter.cleanHeader`: non-strings and falsy strings become
`"Unknown"`; otherwise trim, collapse whitespace, strip special characters,
trim again. -/
def cleanHeader : JVal → List Char
  | .vstr s =>
    if s.isEmpty then "Unknown".toList
    else jsTrim (stripSpecial (collapseWs (jsTrim s)))
  | _ => "Unknown".toList

/-- `CustomerDataImporter.cleanValue`: null/undefined become the empty string,
strings are trimmed, numbers pass through. -/
def cleanValue : JVal → JVal
  | .vnull => .vstr []
  | .vstr s => .vstr (jsTrim s)
  | .vnum n => .vnum n

/-- Header-discovery cell test `cell && String(cell).trim()`: the cell must be
truthy and its string form must trim to something non-empty. -/
def cellNonEmpty (v : JVal) : Bool :=
  jvalTruthy v && !(jsTrim (jvalToStr v)).isEmpty

/-- A candidate header row: at least 3 non-empty cells. -/
def isHeaderRow (row : List JVal) : Bool :=
  3 ≤ (row.filter cellNonEmpty).length

/-- The header search loop `for (let i = 0; i < Math.min(rows, 25); i++)`,
returning the index of the first row satisfying `p`. -/
def findRowAux (p : List JVal → Bool) : Nat → List (List JVal) → Option Nat
  | _, [] => none
  | i, r :: rest => if p r then some i else findRowAux p (i + 1) rest

/-- `convertExcelToJSON`'s header discovery: the first row among the first 25
with at least 3 non-empty cells. -/
def findHeaderRowIdx (rows : List (List JVal)) : Option Nat :=
  findRowAux isHeaderRow 0 (rows.take 25)

/-- JS object property write: an existing key keeps its position and is
overwritten, a new key is appended. -/
def objInsert (r : List (List Char × JVal)) (k : List Char) (v : JVal) :
    List (List Char × JVal) :=
  if r.any (fun p => p.1 = k) then
    r.map (fun p => if p.1 = k then (k, v) else p)
  else r ++ [(k, v)]

/-- `row[index]` with JS out-of-bounds giving `undefined`. -/
def getCell (row : List JVal) (i : Nat) : JVal := row.getD i JVal.vnull

/-- Build one record object: for each header position, use the cleaned header
or `Unknown_<index>` when the cleaned header is the empty string, and store
the cleaned cell value. -/
def buildRow (headers : List (List Char)) (row : List JVal) :
    List (List Char × JVal) :=
  headers.enum.foldl
    (fun acc p =>
      objInsert acc
        (if p.2.isEmpty then "Unknown_".toList ++ natToStr p.1 else p.2)
        (cleanValue (getCell row p.1)))
    []

/-- `isValidRow` cell test: the value is not null/undefined and its string
form trims to something non-empty. -/
def rowValueCounts : JVal → Bool
  | .vnull => false
  | v => !(jsTrim (jvalToStr v)).isEmpty

/-- `CustomerDataImporter.isValidRow`: at least 2 non-empty values. -/
def isValidRowObj (r : List (List Char × JVal)) : Bool :=
  2 ≤ (r.filter (fun p => rowValueCounts p.2)).length

/-- `CustomerDataImporter.convertExcelToJSON`: find the header row (falling
back to row 0 with a console diagnostic, reported here as the `Bool`
component), clean the headers, build a record per following row, and keep the
valid ones. -/
def convertExcelToJSON (rows : List (List JVal)) :
    List (List (List Char × JVal)) × Bool :=
  if rows.isEmpty then ([], false)
  else
    let idx := (findHeaderRowIdx rows).getD 0
    let headers := (rows.getD idx []).map cleanHeader
    (((rows.drop (idx + 1)).map (buildRow headers)).filter isValidRowObj,
      (findHeaderRowIdx rows).isNone)

/-- `CustomerDataImporter.processExcelData`: fail when no valid rows remain,
otherwise report `Object.keys(validData[0])` as the column headers together
with the valid records. -/
def processExcelData (records : List (List (List Char × JVal))) :
    Option (List (List Char) × List (List (List Char × JVal))) :=
  match records.filter isValidRowObj with
  | [] => none
  | r :: rest => some (r.map Prod.fst, r :: rest)

/-- The sheet-selection loop of `importExcel`: fold over the sheets keeping
the first index attaining the maximal row count.  The JS accumulator starts
at `maxRows = -1`, so the first sheet always replaces the initial `none`. -/
def selectBestAux (i : Nat) (best : Option (Nat × Nat)) :
    List (List (List JVal)) → Option (Nat × Nat)
  | [] => best
  | s :: rest =>
    match best with
    | none => selectBestAux (i + 1) (some (i, s.length)) rest
    | some (j, m) =>
      if m < s.length then selectBestAux (i + 1) (some (i, s.length)) rest
      else selectBestAux (i + 1) (some (j, m)) rest

/-- `importExcel`'s choice of worksheet: the index of the sheet with the most
rows (first wins on ties). -/
def selectBestSheet (sheets : List (List (List JVal))) : Option Nat :=
  (selectBestAux 0 none sheets).map Prod.fst

/-- Case/whitespace normalization (`toLowerCase()` then remove all
whitespace), as used by the reconciler when comparing names. -/
def normCaseWs (s : List Char) : List Char :=
  (toLowerJS s).filter (fun c => !isWsChar c)

/-- Demo spreadsheet: a 2-row title block, then a header row with 5 non-empty
cells at row index 2, then one data row. -/
def demoTitleSheet : List (List JVal) :=
  [[JVal.vstr "ACME Customer List".toList, JVal.vstr [], JVal.vstr [],
    JVal.vstr [], JVal.vstr []],
   [JVal.vstr [], JVal.vstr [], JVal.vstr [], JVal.vstr [], JVal.vstr []],
   [JVal.vstr "Name".toList, JVal.vstr "Email".toList, JVal.vstr "Phone".toList,
    JVal.vstr "Expiration Date".toList, JVal.vstr "Notes".toList],
   [JVal.vstr "Ann".toList, JVal.vstr "a@b.c".toList, JVal.vstr "555".toList,
    JVal.vstr "1/2/2026".toList, JVal.vstr "hi".toList]]

/-- Demo spreadsheet whose header row has two headers differing only in case
and one empty header cell. -/
def dupHeaderSheet : List (List JVal) :=
  [[JVal.vstr "NAME".toList, JVal.vstr "name".toList, JVal.vstr "Email".toList,
    JVal.vstr []],
   [JVal.vstr "a".toList, JVal.vstr "b".toList, JVal.vstr "c".toList,
    JVal.vstr "d".toList]]

/-- Simple 2-column demo sheet with one clean header row and one data row. -/
def plainSheet : List (List JVal) :=
  [["A", "B", "C"].map (fun s => JVal.vstr s.toList),
   ["1", "2", "3"].map (fun s => JVal.vstr s.toList)]

/-! ### Field reconciliation (`findBestColumnMatch` in the data importer and
`autoMapFields` in simple_app.js) -/

/-- The regex replace `\s+` → `''`: remove all whitespace. -/
def stripAllWs (s : List Char) : List Char := s.filter (fun c => !isWsChar c)

/-- `findBestColumnMatch`'s normalization: lower-case, then remove all
whitespace. -/
def normalizeFld (s : List Char) : List Char := stripAllWs (toLowerJS s)

/-- Priority 1 of `findBestColumnMatch`: first header equal to the field name
after normalizing both sides. -/
def exactStage (headers : List (List Char)) (nf : List Char) :
    Option (List Char) :=
  headers.find? (fun h => normalizeFld h = nf)

/-- Priority 2 of `findBestColumnMatch`: substring containment in either
direction after normalization. -/
def partialStage (headers : List (List Char)) (nf : List Char) :
    Option (List Char) :=
  headers.find? (fun h =>
    containsSub (normalizeFld h) nf || containsSub nf (normalizeFld h))

/-- The `commonMappings` table of `findBestColumnMatch`, in insertion
order. -/
def commonMappings : List (List Char × List (List Char)) :=
  [("fullname".toList, ["name".toList, "customer".toList, "client".toList,
      "full name".toList, "customer name".toList]),
   ("firstname".toList, ["first".toList, "fname".toList, "first name".toList]),
   ("lastname".toList, ["last".toList, "lname".toList, "last name".toList,
      "surname".toList]),
   ("email".toList, ["email".toList, "e-mail".toList, "mail".toList,
      "email address".toList]),
   ("phone".toList, ["phone".toList, "telephone".toList, "cell".toList,
      "mobile".toList, "contact".toList]),
   ("address".toList, ["address".toList, "street".toList, "location".toList]),
   ("date".toList, ["date".toList, "expiration".toList, "expire".toList,
      "due".toList, "renewal".toList])]

/-- The phone row of `commonMappings`, for stating keyword hypotheses. -/
def phoneVariations : List (List Char) :=
  ["phone".toList, "telephone".toList, "cell".toList, "mobile".toList,
   "contact".toList]

/-- Priority 3 of `findBestColumnMatch`: for the first field type occurring
in the normalized field name, return the first header (lower-cased)
containing one of its variations, in variation order. -/
def fuzzyStage (headers : List (List Char)) (nf : List Char) :
    List (List Char × List (List Char)) → Option (List Char)
  | [] => none
  | (ft, vars) :: rest =>
    if containsSub ft nf then
      match vars.findSome?
          (fun v => headers.find? (fun h => containsSub v (toLowerJS h))) with
      | some h => some h
      | none => fuzzyStage headers nf rest
    else fuzzyStage headers nf rest

/-- `CustomerDataImporter.findBestColumnMatch`: exact, then partial, then
keyword-table fallback. -/
def findBestColumnMatch (headers : List (List Char)) (fieldName : List Char) :
    Option (List Char) :=
  if fieldName.isEmpty then none
  else
    match exactStage headers (normalizeFld fieldName) with
    | some h => some h
    | none =>
      match partialStage headers (normalizeFld fieldName) with
      | some h => some h
      | none => fuzzyStage headers (normalizeFld fieldName) commonMappings

/-- Strip at most one leading `[` (the regex `^\[`). -/
def dropLeadLB : List Char → List Char
  | '[' :: r => r
  | s => s

/-- Strip at most one trailing `]` (the regex `]$`). -/
def dropTrailRB (s : List Char) : List Char :=
  match s.reverse with
  | ']' :: r => r.reverse
  | _ => s

/-- The field cleaning in the importer's `autoMapFields`:
`.replace(/^\[|\]$/g,'').toLowerCase().trim()`. -/
def importerCleanField (mergeField : List Char) : List Char :=
  jsTrim (toLowerJS (dropTrailRB (dropLeadLB mergeField)))

/-- The field cleaning in simple_app's `autoMapFields`: remove bracket (and
backslash) characters per `/[\\[\\]]/g`, lower-case, then remove space
characters per `/ /g`. -/
def appCleanField (f : List Char) : List Char :=
  (toLowerJS (f.filter (fun c => !(c = '[' || c = ']' || c = '\\')))).filter
    (fun c => !(c = ' '))

/-- simple_app `autoMapFields`: map each merge field to the first header that
matches after lower-casing and space removal, or to `""`. -/
def appAutoMapFields (mergeFields headers : List (List Char)) :
    List (List Char × List Char) :=
  mergeFields.map (fun f =>
    (f, (headers.find? (fun h =>
          (toLowerJS h).filter (fun c => !(c = ' ')) = appCleanField f)).getD
      []))

/-! ### MessageCustomizer value formatters (js/message-engine.js) -/

/-- `MessageCustomizer.formatPhone`: strip non-digits; exactly 10 digits
format as `(AAA) BBB-CCCC`; 11 digits with leading 1 as `+1 (AAA) BBB-CCCC`;
otherwise the input is returned unchanged. -/
def formatPhone (phone : List Char) : List Char :=
  if phone.isEmpty then phone
  else
    let digits := phone.filter Char.isDigit
    if digits.length = 10 then
      '(' :: digits.take 3 ++ ") ".toList ++ (digits.drop 3).take 3 ++
        '-' :: digits.drop 6
    else if digits.length = 11 ∧ digits.getD 0 ' ' = '1' then
      "+1 (".toList ++ (digits.drop 1).take 3 ++ ") ".toList ++
        (digits.drop 4).take 3 ++ '-' :: digits.drop 7
    else phone

/-- `MessageCustomizer.isValidPhone`: 10 to 15 digits. -/
def isValidPhone (phone : List Char) : Bool :=
  if phone.isEmpty then false
  else
    decide (10 ≤ (phone.filter Char.isDigit).length ∧
      (phone.filter Char.isDigit).length ≤ 15)

/-- `word.charAt(0).toUpperCase() + word.slice(1)`. -/
def capWord : List Char → List Char
  | [] => []
  | c :: cs => c.toUpper :: cs

/-- JS `split(' ')`: split on single spaces, preserving empty fields. -/
def splitSpaceAux (cur : List Char) : List Char → List (List Char)
  | [] => [cur.reverse]
  | c :: cs =>
    if c = ' ' then cur.reverse :: splitSpaceAux [] cs
    else splitSpaceAux (c :: cur) cs

/-- JS `split(' ')`. -/
def splitSpace (s : List Char) : List (List Char) := splitSpaceAux [] s

/-- JS `join(' ')`. -/
def joinSpace : List (List Char) → List Char
  | [] => []
  | [w] => w
  | w :: ws => w ++ ' ' :: joinSpace ws

/-- The apostrophe character. -/
def apoChar : Char := Char.ofNat 39

/-- The replace `\bMc(\w)` → `'Mc$1'` of `formatName`: each word-boundary
occurrence of `Mc` followed by a word character is rewritten to `Mc` followed
by that same captured character — i.e. to exactly the matched text.  The flag
records whether the previous character was a word character (for `\b`). -/
def mcReplF : Nat → Bool → List Char → List Char
  | 0, _, s => s
  | _ + 1, _, [] => []
  | fuel + 1, prevW, c1 :: rest =>
    match rest with
    | c2 :: c3 :: rest' =>
      if c1 = 'M' ∧ c2 = 'c' ∧ prevW = false ∧ isWordChar c3 = true then
        c1 :: c2 :: c3 :: mcReplF fuel (isWordChar c3) rest'
      else c1 :: mcReplF fuel (isWordChar c1) rest
    | _ => c1 :: mcReplF fuel (isWordChar c1) rest

/-- The scan of `mcReplF` driven with enough fuel (every step consumes at
least one character, so `s.length` suffices). -/
def mcRepl (prevW : Bool) (s : List Char) : List Char :=
  mcReplF s.length prevW s

/-- The replace `\bO'(\w)` → `"O'$1"` of `formatName`, likewise rewriting
each match to exactly the matched text. -/
def opReplF : Nat → Bool → List Char → List Char
  | 0, _, s => s
  | _ + 1, _, [] => []
  | fuel + 1, prevW, c1 :: rest =>
    match rest with
    | c2 :: c3 :: rest' =>
      if c1 = 'O' ∧ c2 = apoChar ∧ prevW = false ∧ isWordChar c3 = true then
        c1 :: c2 :: c3 :: opReplF fuel (isWordChar c3) rest'
      else c1 :: opReplF fuel (isWordChar c1) rest
    | _ => c1 :: opReplF fuel (isWordChar c1) rest

/-- The scan of `opReplF` driven with enough fuel. -/
def opRepl (prevW : Bool) (s : List Char) : List Char :=
  opReplF s.length prevW s

/-- `MessageCustomizer.formatName`: lower-case, title-case each
space-separated word, then apply the two (identity) particle replaces. -/
def formatName (name : List Char) : List Char :=
  if name.isEmpty then name
  else
    opRepl false (mcRepl false
      (joinSpace ((splitSpace (toLowerJS name)).map capWord)))

/-! ### Dates (simple_app `formatFieldValue`; `MessageCustomizer.formatDate`) -/

/-- A civil (proleptic Gregorian) calendar date. -/
structure CivilDate where
  year : Int
  month : Nat
  day : Nat
deriving DecidableEq

/-- Days since the Unix epoch to a civil date (the standard civil-from-days
algorithm); used to model `new Date(ms)` followed by date-component reads,
with rendering fixed to UTC. -/
def civilFromDays (z0 : Int) : CivilDate :=
  let z := z0 + 719468
  let era := z.fdiv 146097
  let doe := (z - era * 146097).toNat
  let yoe := (doe - doe / 1460 + doe / 36524 - doe / 146096) / 365
  let doy := doe - (365 * yoe + yoe / 4 - yoe / 100)
  let mp := (5 * doy + 2) / 153
  let d := doy - (153 * mp + 2) / 5 + 1
  let m := if mp < 10 then mp + 3 else mp - 9
  { year := if m ≤ 2 then (yoe : Int) + era * 400 + 1
            else (yoe : Int) + era * 400,
    month := m, day := d }

/-- English month names as produced by
`toLocaleDateString('en-US', {month:'long'})`. -/
def monthName : Nat → List Char
  | 1 => "January".toList
  | 2 => "February".toList
  | 3 => "March".toList
  | 4 => "April".toList
  | 5 => "May".toList
  | 6 => "June".toList
  | 7 => "July".toList
  | 8 => "August".toList
  | 9 => "September".toList
  | 10 => "October".toList
  | 11 => "November".toList
  | 12 => "December".toList
  | _ => []

/-- `toLocaleDateString('en-US', {year:'numeric', month:'long',
day:'numeric'})`: "Month D, YYYY". -/
def renderLongDate (d : CivilDate) : List Char :=
  monthName d.month ++ ' ' :: natToStr d.day ++ ',' :: ' ' :: intToStr d.year

/-- simple_app `isDateField`: the field name contains a date keyword. -/
def appIsDateField (fieldName : List Char) : Bool :=
  ["date".toList, "expir".toList, "due".toList, "renew".toList,
   "birth".toList, "created".toList, "updated".toList].any
    (fun k => containsSub k (toLowerJS fieldName))

/-- Digit run to number. -/
def digitsToNat (ds : List Char) : Nat :=
  ds.foldl (fun acc c => 10 * acc + (c.toNat - '0'.toNat)) 0

/-- `Number(value)` on a string, restricted to integral results: trims, then
parses an optionally signed decimal digit run (the empty string yields 0, as
in JS); anything else — including fractional strings — yields `none`,
representing NaN-or-nonintegral for the serial-date guard below. -/
def parseIntJS (s : List Char) : Option Int :=
  match jsTrim s with
  | [] => some 0
  | '-' :: ds =>
    if ¬ds.isEmpty ∧ ds.all Char.isDigit then some (-(digitsToNat ds : Int))
    else none
  | '+' :: ds =>
    if ¬ds.isEmpty ∧ ds.all Char.isDigit then some (digitsToNat ds)
    else none
  | ds => if ds.all Char.isDigit then some (digitsToNat ds) else none

/-- The serial-date guard of `formatFieldValue`:
`(!isNaN(numValue) && numValue > 1 && numValue < 100000 &&
Number.isInteger(numValue)) || (typeof value === 'number' && value > 1 &&
value < 100000)` — for the integral values of this model the two disjuncts
coincide. -/
def serialGuard : JVal → Option Int
  | .vnum n => if 1 < n ∧ n < 100000 then some n else none
  | .vstr s =>
    match parseIntJS s with
    | some n => if 1 < n ∧ n < 100000 then some n else none
    | none => none
  | .vnull => none

/-- `new Date(value)` in the fallback branch of `formatFieldValue`: a number
is milliseconds since the epoch; a string goes to the host parser. -/
def jsDateOf (jsParse : List Char → Option CivilDate) : JVal → Option CivilDate
  | .vnum n => some (civilFromDays (n.fdiv 86400000))
  | .vstr s => jsParse s
  | .vnull => none

/-- `SimpleMailBot.formatFieldValue`: null/undefined/'' render as the empty
string; date-classified fields try the Excel-serial interpretation (days
since 1900 epoch, offset 25569 from the Unix epoch) and then a general date
parse; everything else stringifies. -/
def formatFieldValue (jsParse : List Char → Option CivilDate) (value : JVal)
    (fieldName : List Char) : List Char :=
  match value with
  | .vnull => []
  | .vstr [] => []
  | v =>
    if appIsDateField fieldName then
      match serialGuard v with
      | some n => renderLongDate (civilFromDays (n - 25569))
      | none =>
        match jsDateOf jsParse v with
        | some d => renderLongDate d
        | none => jvalToStr v
    else jvalToStr v

/-! ### MessageCustomizer substitution engine (js/message-engine.js) -/

/-- `MessageCustomizer.isDateField`: a date keyword occurs in
`` `${fieldName} ${dataColumn}`.toLowerCase() ``. -/
def isDateFieldMC (fieldName dataColumn : List Char) : Bool :=
  ["date".toList, "expir".toList, "due".toList, "renew".toList,
   "birth".toList, "created".toList, "updated".toList].any
    (fun k => containsSub k (toLowerJS (fieldName ++ ' ' :: dataColumn)))

/-- `MessageCustomizer.isNameField`. -/
def isNameFieldMC (fieldName dataColumn : List Char) : Bool :=
  ["name".toList, "first".toList, "last".toList, "full".toList,
   "customer".toList, "client".toList].any
    (fun k => containsSub k (toLowerJS (fieldName ++ ' ' :: dataColumn)))

/-- `MessageCustomizer.isEmailField`. -/
def isEmailFieldMC (fieldName dataColumn : List Char) : Bool :=
  ["email".toList, "mail".toList, "@".toList].any
    (fun k => containsSub k (toLowerJS (fieldName ++ ' ' :: dataColumn)))

/-- `MessageCustomizer.isPhoneField`. -/
def isPhoneFieldMC (fieldName dataColumn : List Char) : Bool :=
  ["phone".toList, "tel".toList, "mobile".toList, "cell".toList,
   "contact".toList].any
    (fun k => containsSub k (toLowerJS (fieldName ++ ' ' :: dataColumn)))

/-- The category-formatting tail of `MessageCustomizer.formatValue`, applied
to `String(value).trim()`.  `MessageCustomizer.parseDate` wraps the host's
`new Date(string)` parser (plus retries on slash/dash sub-patterns), which is
implementation-defined in JavaScript; its total behaviour is the `jsParse`
parameter, and `formatDate` renders "Month D, YYYY" exactly as
`renderLongDate`. -/
def formatValueCore (jsParse : List Char → Option CivilDate)
    (fv0 fieldName dataColumn : List Char) : List Char :=
  let fv1 := if isDateFieldMC fieldName dataColumn then
      match jsParse fv0 with
      | some d => renderLongDate d
      | none => fv0
    else fv0
  let fv2 := if isNameFieldMC fieldName dataColumn then formatName fv1 else fv1
  let fv3 := if isEmailFieldMC fieldName dataColumn then toLowerJS fv2 else fv2
  if isPhoneFieldMC fieldName dataColumn then formatPhone fv3 else fv3

/-- `MessageCustomizer.formatValue`: null/undefined become the missing
sentinel, whitespace-only strings the empty sentinel, and anything else is
stringified, trimmed and category-formatted. -/
def formatValueMC (jsParse : List Char → Option CivilDate) (value : JVal)
    (fieldName dataColumn : List Char) : List Char :=
  match value with
  | .vnull => "[MISSING: ".toList ++ fieldName ++ [']']
  | .vstr s =>
    if (jsTrim s).isEmpty then "[EMPTY: ".toList ++ fieldName ++ [']']
    else formatValueCore jsParse (jsTrim s) fieldName dataColumn
  | .vnum n => formatValueCore jsParse (jsTrim (intToStr n)) fieldName dataColumn

/-- `MessageCustomizer.getCustomerValue`: exact key, then case-insensitive
key, then substring-fuzzy key, else null. -/
def getCustomerValue (customerData : List (List Char × JVal))
    (dataColumn : List Char) : JVal :=
  if dataColumn.isEmpty then .vnull
  else
    match customerData.find? (fun p => p.1 = dataColumn) with
    | some p => p.2
    | none =>
      match customerData.find? (fun p => toLowerJS p.1 = toLowerJS dataColumn) with
      | some p => p.2
      | none =>
        match customerData.find? (fun p =>
            containsSub (normalizeFld dataColumn) (normalizeFld p.1) ||
            containsSub (normalizeFld p.1) (normalizeFld dataColumn)) with
        | some p => p.2
        | none => .vnull

/-- The greedy capture of the space-anchored merge-field regex
`\ \[([^\\]+)\] ` once its leading `" ["` has been consumed: split the
remaining text as `X ++ ']' :: ' ' :: rest` with `X` free of backslashes,
taking the longest such `X` — the class `[^\\]` excludes only the backslash,
so the greedy capture may run across `]` characters.  `none` when no such
split exists before the first backslash. -/
def greedySplit0 : List Char → Option (List Char × List Char)
  | [] => none
  | c :: cs =>
    if c = '\\' then none
    else
      match greedySplit0 cs with
      | some p => some (c :: p.1, p.2)
      | none =>
        if c = ']' ∧ cs.head? = some ' ' then some ([], cs.tail) else none

/-- The merge-field regex `/\ \[([^\\]+)\] /g` of `replaceFields` and of the
unreplaced-field count of `validateCustomization` (message-engine.js lines
88 and 420): a literal space, `[`, a greedy non-empty run of non-backslash
characters, `]`, a literal space.  Fuel-indexed leftmost scan returning the
full matches in order (each includes its flanking spaces, as `match[0]`
does); after a match, scanning resumes past the consumed trailing space; a
failed candidate resumes one character further on.  Each step consumes at
least one character, so fuel equal to the text length suffices. -/
def mfScanF : Nat → List Char → List (List Char)
  | 0, _ => []
  | _ + 1, [] => []
  | fuel + 1, c :: cs =>
    if c = ' ' then
      match cs with
      | [] => []
      | d :: t =>
        if d = '[' then
          match greedySplit0 t with
          | some p =>
            if p.1.isEmpty then mfScanF fuel cs
            else (' ' :: '[' :: (p.1 ++ ']' :: [' '])) :: mfScanF fuel p.2
          | none => mfScanF fuel cs
        else mfScanF fuel cs
    else mfScanF fuel cs

/-- All matches of the merge-field regex. -/
def scan1 (s : List Char) : List (List Char) := mfScanF s.length s

/-- The full matched text of a properly spaced merge field: `" [name] "`. -/
def spacedTok (n : List Char) : List Char := ' ' :: '[' :: (n ++ ']' :: [' '])
/-- A bracket character of the extraction grammar. -/
def isBracket (c : Char) : Bool := c = '[' || c = ']'

/-- Scanner state for the extraction regex `[\[\]]+([^[\]]+)[\[\]]+`:
outside any candidate, inside the opening bracket run, inside the non-bracket
run, or inside the closing bracket run (all runs held reversed). -/
inductive Scan2State where
  | outside
  | brun (b1 : List Char)
  | nrun (b1 n : List Char)
  | crun (b1 n b2 : List Char)

/-- The extraction regex `[\[\]]+([^[\]]+)[\[\]]+` used on template text in
`startProcessing`, as a leftmost-match scan returning full matches. -/
def scan2Aux : Scan2State → List Char → List (List Char)
  | .outside, [] => []
  | .brun _, [] => []
  | .nrun _ _, [] => []
  | .crun b1 n b2, [] => [b1.reverse ++ n.reverse ++ b2.reverse]
  | .outside, c :: cs =>
    if isBracket c then scan2Aux (.brun [c]) cs else scan2Aux .outside cs
  | .brun b1, c :: cs =>
    if isBracket c then scan2Aux (.brun (c :: b1)) cs
    else scan2Aux (.nrun b1 [c]) cs
  | .nrun b1 n, c :: cs =>
    if isBracket c then scan2Aux (.crun b1 n [c]) cs
    else scan2Aux (.nrun b1 (c :: n)) cs
  | .crun b1 n b2, c :: cs =>
    if isBracket c then scan2Aux (.crun b1 n (c :: b2)) cs
    else (b1.reverse ++ n.reverse ++ b2.reverse) :: scan2Aux .outside cs

/-- All matches of the extraction regex. -/
def scan2 (s : List Char) : List (List Char) := scan2Aux .outside s

/-- `[...new Set(xs)]`: deduplicate preserving first occurrence. -/
def dedupFirst (l : List (List Char)) : List (List Char) :=
  l.foldl (fun acc x => if x ∈ acc then acc else acc ++ [x]) []

/-- The tag-stripping replace `/<[^>]+>/g` → `' '` applied to converted
template markup before extraction.  The state holds the reversed non-`>` run
after a `<`; an unclosed `<…` at the end of input is literal text. -/
def stripTagsAux : Option (List Char) → List Char → List Char
  | none, [] => []
  | none, c :: cs =>
    if c = '<' then stripTagsAux (some []) cs else c :: stripTagsAux none cs
  | some acc, [] => '<' :: acc.reverse
  | some acc, c :: cs =>
    if c = '>' then
      if acc.isEmpty then '<' :: c :: stripTagsAux none cs
      else ' ' :: stripTagsAux none cs
    else stripTagsAux (some (c :: acc)) cs

/-- `html.replace(/<[^>]+>/g, ' ')`. -/
def stripTags (s : List Char) : List Char := stripTagsAux none s

/-- simple_app merge-field extraction: strip markup tags, match the
extraction regex, dedupe preserving order. -/
def extractMergeFields (s : List Char) : List (List Char) :=
  dedupFirst (scan2 (stripTags s))

/-- JS replacement-string expansion (ECMA GetSubstitution): `$$`, `$&`,
dollar-backquote (the already-scanned prefix) and dollar-quote (the rest
after the match) are special; a `$` before anything else — including digits,
since the escaped literal pattern has no capture groups — stays literal. -/
def expandRepl (matched pre post : List Char) : List Char → List Char
  | [] => []
  | c :: r =>
    if c = '$' then
      match r with
      | [] => ['$']
      | c2 :: r' =>
        if c2 = '$' then '$' :: expandRepl matched pre post r'
        else if c2 = '&' then matched ++ expandRepl matched pre post r'
        else if c2 = Char.ofNat 96 then pre ++ expandRepl matched pre post r'
        else if c2 = apoChar then post ++ expandRepl matched pre post r'
        else '$' :: c2 :: expandRepl matched pre post r'
    else c :: expandRepl matched pre post r

/-- One global replace `.replace(new RegExp(escapeRegex(pat), 'g'), rep)`
with a literal non-empty pattern: scan left to right; at each position not
inside a previous match, if the pattern starts here emit the expanded
replacement and skip the pattern length (the `Nat` counter), else copy one
character.  `pre` accumulates the scanned prefix for dollar-backquote.  (The
callers never pass an empty pattern; it is treated as no-op here.) -/
def replAux (pat rep : List Char) : Nat → List Char → List Char → List Char
  | _, _, [] => []
  | k + 1, pre, c :: cs => replAux pat rep k (pre ++ [c]) cs
  | 0, pre, c :: cs =>
    if pat.isPrefixOf (c :: cs) ∧ ¬pat.isEmpty then
      expandRepl pat pre ((c :: cs).drop pat.length) rep ++
        replAux pat rep (pat.length - 1) (pre ++ [c]) cs
    else c :: replAux pat rep 0 (pre ++ [c]) cs

/-- Global replace of a literal pattern. -/
def replaceAllJS (pat rep s : List Char) : List Char := replAux pat rep 0 [] s

/-- Status of one merge field in the replacement log. -/
inductive RStatus where
  | replaced
  | missing
  | unmapped
deriving DecidableEq

/-- One entry of `replaceFields`' replacement log (the fields the claims
inspect). -/
structure ReplEntry where
  field : List Char
  status : RStatus
deriving DecidableEq

/-- `fieldMapping[mergeField]`, with JS absent-property giving `undefined`,
modelled as the empty string (both are falsy where the lookup is used). -/
def lookupMapping (mapping : List (List Char × List Char))
    (k : List Char) : List Char :=
  ((mapping.find? (fun p => p.1 = k)).map Prod.snd).getD []

/-- `mergeField.replace(/^\ \[|]\ $/g, '')` (message-engine.js line 110):
remove one leading `" ["` and one trailing `"] "` when present. -/
def dropTrailClose (r : List Char) : List Char :=
  if ([' ', ']']).isPrefixOf r.reverse then (r.reverse.drop 2).reverse else r

def stripFieldBrackets (mergeField : List Char) : List Char :=
  if ([' ', '[']).isPrefixOf mergeField then dropTrailClose (mergeField.drop 2)
  else dropTrailClose mergeField
/-- The body of `replaceFields`' per-unique-field loop: resolve the mapping,
fetch and format the value (or build the unmapped sentinel), replace all
occurrences in the working message, and append a log entry. -/
def replaceFieldsStep (jsParse : List Char → Option CivilDate)
    (customerData : List (List Char × JVal))
    (mapping : List (List Char × List Char))
    (st : List Char × List ReplEntry) (mergeField : List Char) :
    List Char × List ReplEntry :=
  let fieldName := stripFieldBrackets mergeField
  let dataColumn := lookupMapping mapping mergeField
  if dataColumn.isEmpty then
    (replaceAllJS mergeField ("[UNMAPPED: ".toList ++ fieldName ++ [']'])
        st.1,
      st.2 ++ [⟨mergeField, RStatus.unmapped⟩])
  else
    let customerValue := getCustomerValue customerData dataColumn
    (replaceAllJS mergeField
        (formatValueMC jsParse customerValue fieldName dataColumn) st.1,
      st.2 ++ [⟨mergeField,
        if jvalTruthy customerValue then RStatus.replaced
        else RStatus.missing⟩])

/-- `MessageCustomizer.replaceFields`: scan the template for merge fields,
dedupe them in first-occurrence order, and process each one against the
working message, collecting the replacement log. -/
def replaceFields (jsParse : List Char → Option CivilDate)
    (template : List Char) (customerData : List (List Char × JVal))
    (mapping : List (List Char × List Char)) :
    List Char × List ReplEntry :=
  (dedupFirst (scan1 template)).foldl
    (replaceFieldsStep jsParse customerData mapping) (template, [])

/-- The sentinel count regexes `/ \[MISSING: ([^\\]+)\] /g` and
`/ \[UNMAPPED: ([^\\]+)\] /g` of `validateCustomization`
(message-engine.js lines 421-422): a flanking space, `[`, the literal
`inner`, a greedy non-empty run of non-backslash characters, `]`, a
flanking space.  Fuel-indexed leftmost match count. -/
def sentScanF (inner : List Char) : Nat → List Char → Nat
  | 0, _ => 0
  | _ + 1, [] => 0
  | fuel + 1, c :: cs =>
    if c = ' ' then
      match cs with
      | [] => 0
      | d :: t =>
        if d = '[' then
          if inner.isPrefixOf t then
            match greedySplit0 (t.drop inner.length) with
            | some p =>
              if p.1.isEmpty then sentScanF inner fuel cs
              else 1 + sentScanF inner fuel p.2
            | none => sentScanF inner fuel cs
          else sentScanF inner fuel cs
        else sentScanF inner fuel cs
    else sentScanF inner fuel cs

/-- Count of sentinel-regex matches in a message. -/
def sentScan (inner s : List Char) : Nat := sentScanF inner s.length s
/-- The statistics and verdict of `MessageCustomizer.validateCustomization`
(the length/email/phone warnings do not feed `isValid` and are omitted):
counts of unreplaced bracket tokens, missing sentinels and unmapped
sentinels; the result is valid iff no missing and no unmapped sentinel
occurs. -/
structure ValReport where
  isValid : Bool
  unreplacedFields : Nat
  missingFields : Nat
  unmappedFields : Nat
deriving DecidableEq

/-- `MessageCustomizer.validateCustomization` on the customized message:
the three space-anchored count regexes, with `isValid` false exactly when an
unmapped or missing sentinel is counted. -/
def validateCustomization (message : List Char) : ValReport :=
  let mf := sentScan "MISSING: ".toList message
  let uf := sentScan "UNMAPPED: ".toList message
  { isValid := decide (uf = 0 ∧ mf = 0),
    unreplacedFields := (scan1 message).length,
    missingFields := mf, unmappedFields := uf }
/-! ### Character-class predicates for the substitution claims -/

/-- No bracket characters occur. -/
def bracketFree (s : List Char) : Prop := ∀ c ∈ s, c ≠ '[' ∧ c ≠ ']'

/-- No dollar character occurs (so JS replacement inserts the text
literally). -/
def noDollar (s : List Char) : Prop := '$' ∉ s

/-- A host date parser that always fails (for concrete instantiations; the
counterexample inputs never reach a date-classified field, so any parser
gives the same result there). -/
def jsParseNone : List Char → Option CivilDate := fun _ => none

instance (s : List Char) : Decidable (bracketFree s) :=
  decidable_of_iff (∀ c ∈ s, c ≠ '[' ∧ c ≠ ']') Iff.rfl

instance (s : List Char) : Decidable (noDollar s) :=
  decidable_of_iff ('$' ∉ s) Iff.rfl

/-! ### Lemmas about header discovery and sheet selection (C1) -/

lemma findRowAux_some (p : List JVal → Bool) :
    ∀ (l : List (List JVal)) (i k : Nat), findRowAux p i l = some k →
      i ≤ k ∧ k - i < l.length ∧ p (l.getD (k - i) []) = true ∧
        ∀ t, t < k - i → p (l.getD t []) = false := by
  intro l
  induction l with
  | nil => intro i k h; simp [findRowAux] at h
  | cons r rest ih =>
    intro i k h
    by_cases hp : p r
    · simp only [findRowAux, hp, if_true, Option.some.injEq] at h
      subst h
      refine ⟨Nat.le_refl _, by simp, by simpa [List.getD] using hp, ?_⟩
      intro t ht; omega
    · simp only [findRowAux, hp, if_false] at h
      obtain ⟨h1, h2, h3, h4⟩ := ih (i + 1) k h
      refine ⟨by omega, by simp; omega, ?_, ?_⟩
      · have : k - i = (k - (i + 1)) + 1 := by omega
        rw [this]; simpa [List.getD] using h3
      · intro t ht
        match t with
        | 0 => simpa [List.getD] using hp
        | t' + 1 =>
          have : t' < k - (i + 1) := by omega
          simpa [List.getD] using h4 t' this

lemma findRowAux_none (p : List JVal → Bool) :
    ∀ (l : List (List JVal)) (i : Nat), findRowAux p i l = none →
      ∀ t, t < l.length → p (l.getD t []) = false := by
  intro l
  induction l with
  | nil => intro i _ t ht; simp at ht
  | cons r rest ih =>
    intro i h t ht
    by_cases hp : p r
    · simp [findRowAux, hp] at h
    · simp only [findRowAux, hp, if_false] at h
      match t with
      | 0 => simpa [List.getD] using hp
      | t' + 1 =>
        have : t' < rest.length := by simpa using ht
        simpa [List.getD] using ih (i + 1) h t' this

lemma getD_take {l : List (List JVal)} {t n : Nat} (h : t < n) :
    (l.take n).getD t [] = l.getD t [] := by
  simp [List.getD_eq_getElem?_getD, List.getElem?_take, h]

lemma findHeaderRowIdx_some {rows : List (List JVal)} {i : Nat}
    (h : findHeaderRowIdx rows = some i) :
    i < 25 ∧ i < rows.length ∧ isHeaderRow (rows.getD i []) = true ∧
      ∀ t, t < i → isHeaderRow (rows.getD t []) = false := by
  obtain ⟨-, h2, h3, h4⟩ := findRowAux_some isHeaderRow (rows.take 25) 0 i h
  simp only [Nat.sub_zero] at h2 h3 h4
  rw [List.length_take] at h2
  have hi25 : i < 25 := lt_of_lt_of_le h2 (min_le_left _ _)
  have hil : i < rows.length := lt_of_lt_of_le h2 (min_le_right _ _)
  refine ⟨hi25, hil, by rwa [getD_take hi25] at h3, fun t ht => ?_⟩
  have := h4 t ht
  rwa [getD_take (lt_trans ht hi25)] at this

lemma findHeaderRowIdx_none {rows : List (List JVal)}
    (h : findHeaderRowIdx rows = none) :
    ∀ t, t < min rows.length 25 → isHeaderRow (rows.getD t []) = false := by
  intro t ht
  have hlen : t < (rows.take 25).length := by rw [List.length_take]; omega
  have := findRowAux_none isHeaderRow (rows.take 25) 0 h t hlen
  rwa [getD_take (by omega)] at this

lemma selectBestAux_mono :
    ∀ (l : List (List (List JVal))) (i j0 j : Nat) (m0 m : Nat),
      selectBestAux i (some (j0, m0)) l = some (j, m) → m0 ≤ m := by
  intro l
  induction l with
  | nil => intro i j0 j m0 m h; simp [selectBestAux] at h; omega
  | cons s rest ih =>
    intro i j0 j m0 m h
    simp only [selectBestAux] at h
    by_cases hc : m0 < s.length
    · rw [if_pos hc] at h
      have := ih (i + 1) i j s.length m h
      omega
    · rw [if_neg hc] at h
      exact ih (i + 1) j0 j m0 m h

lemma selectBestAux_bound :
    ∀ (l : List (List (List JVal))) (i : Nat) (b : Option (Nat × Nat))
      (j m : Nat), selectBestAux i b l = some (j, m) →
      ∀ s ∈ l, s.length ≤ m := by
  intro l
  induction l with
  | nil => intro i b j m _ s hs; simp at hs
  | cons r rest ih =>
    intro i b j m h s hs
    rcases List.mem_cons.mp hs with rfl | hs'
    · match b with
      | none =>
        simp only [selectBestAux] at h
        exact selectBestAux_mono rest (i + 1) i j s.length m h
      | some (j0, m0) =>
        simp only [selectBestAux] at h
        by_cases hc : m0 < s.length
        · rw [if_pos hc] at h
          exact selectBestAux_mono rest (i + 1) i j s.length m h
        · rw [if_neg hc] at h
          have := selectBestAux_mono rest (i + 1) j0 j m0 m h
          omega
    · match b with
      | none => exact ih (i + 1) _ j m h s hs'
      | some (j0, m0) =>
        simp only [selectBestAux] at h
        by_cases hc : m0 < r.length
        · rw [if_pos hc] at h; exact ih (i + 1) _ j m h s hs'
        · rw [if_neg hc] at h; exact ih (i + 1) _ j m h s hs'

lemma selectBestAux_index :
    ∀ (l : List (List (List JVal))) (i : Nat) (b : Option (Nat × Nat))
      (j m : Nat), selectBestAux i b l = some (j, m) →
      b = some (j, m) ∨
        ∃ k, k < l.length ∧ j = i + k ∧ m = (l.getD k []).length := by
  intro l
  induction l with
  | nil => intro i b j m h; left; simpa [selectBestAux] using h
  | cons r rest ih =>
    intro i b j m h
    have step : ∀ (hrec : selectBestAux (i + 1) (some (i, r.length)) rest = some (j, m)),
        b = some (j, m) ∨
          ∃ k, k < (r :: rest).length ∧ j = i + k ∧ m = ((r :: rest).getD k []).length := by
      intro hrec
      rcases ih (i + 1) _ j m hrec with heq | ⟨k, hk, hjk, hmk⟩
      · right
        refine ⟨0, by simp, ?_, ?_⟩ <;> simp [Option.some.injEq, Prod.mk.injEq] at heq
        · omega
        · simp [List.getD]; omega
      · right
        refine ⟨k + 1, by simpa using hk, by omega, by simpa [List.getD] using hmk⟩
    match b with
    | none =>
      simp only [selectBestAux] at h
      exact step h
    | some (j0, m0) =>
      simp only [selectBestAux] at h
      by_cases hc : m0 < r.length
      · rw [if_pos hc] at h
        exact step h
      · rw [if_neg hc] at h
        rcases ih (i + 1) _ j m h with heq | ⟨k, hk, hjk, hmk⟩
        · left; exact heq
        · right
          refine ⟨k + 1, by simpa using hk, by omega, by simpa [List.getD] using hmk⟩

lemma selectBestAux_isSome :
    ∀ (l : List (List (List JVal))) (i j0 m0 : Nat),
      (selectBestAux i (some (j0, m0)) l).isSome := by
  intro l
  induction l with
  | nil => intro i j0 m0; simp [selectBestAux]
  | cons r rest ih =>
    intro i j0 m0
    simp only [selectBestAux]
    by_cases hc : m0 < r.length
    · rw [if_pos hc]; exact ih (i + 1) i r.length
    · rw [if_neg hc]; exact ih (i + 1) j0 m0

lemma getD_eq_getElem {α : Type} (l : List α) (d : α) {n : Nat}
    (h : n < l.length) : l.getD n d = l[n] := by
  simp [List.getD_eq_getElem?_getD, List.getElem?_eq_getElem h]

/-- Claim C1: for spreadsheet input, import selects the sheet with the
greatest row count (first on ties); within that sheet the first of the first
25 rows containing at least 3 non-empty cells becomes the header row; when no
row qualifies, row 0 is used as header and import reports a diagnostic rather
than failing; in particular, with a 2-row title block and a header row of 5
non-empty cells at row index 2, header discovery selects index 2. -/
theorem c1_header_discovery :
    (∀ sheets j, selectBestSheet sheets = some j →
        j < sheets.length ∧
          ∀ k, k < sheets.length →
            (sheets.getD k []).length ≤ (sheets.getD j []).length)
    ∧ (∀ sheets, sheets ≠ ([] : List (List (List JVal))) →
        (selectBestSheet sheets).isSome)
    ∧ (∀ rows i, findHeaderRowIdx rows = some i →
        i < 25 ∧ i < rows.length ∧ isHeaderRow (rows.getD i []) = true ∧
          ∀ t, t < i → isHeaderRow (rows.getD t []) = false)
    ∧ (∀ rows, findHeaderRowIdx rows = none →
        ∀ t, t < min rows.length 25 → isHeaderRow (rows.getD t []) = false)
    ∧ (∀ rows, rows ≠ ([] : List (List JVal)) → findHeaderRowIdx rows = none →
        convertExcelToJSON rows =
          (((rows.drop 1).map
              (buildRow ((rows.getD 0 []).map cleanHeader))).filter
            isValidRowObj, true))
    ∧ findHeaderRowIdx demoTitleSheet = some 2 := by
  refine ⟨?_, ?_, ?_, ?_, ?_, by decide⟩
  · intro sheets j h
    obtain ⟨⟨j', m⟩, haux, hj⟩ := Option.map_eq_some'.mp h
    simp only at hj
    subst hj
    rcases selectBestAux_index sheets 0 none j' m haux with heq | ⟨k, hk, hjk, hmk⟩
    · simp at heq
    · have hjk' : j' = k := by omega
      subst hjk'
      refine ⟨hk, fun t ht => ?_⟩
      have hmem : sheets.getD t [] ∈ sheets := by
        rw [getD_eq_getElem sheets [] ht]; exact List.getElem_mem ht
      have := selectBestAux_bound sheets 0 none j' m haux _ hmem
      omega
  · intro sheets hne
    match sheets with
    | [] => exact absurd rfl hne
    | s :: rest =>
      have hstep : selectBestAux 0 none (s :: rest) =
          selectBestAux 1 (some (0, s.length)) rest := rfl
      obtain ⟨v, hv⟩ :=
        Option.isSome_iff_exists.mp (selectBestAux_isSome rest 1 0 s.length)
      simp [selectBestSheet, hstep, hv]
  · intro rows i h
    exact findHeaderRowIdx_some h
  · intro rows h
    exact findHeaderRowIdx_none h
  · intro rows hne h
    have he : rows.isEmpty = false := by
      cases rows with
      | nil => exact absurd rfl hne
      | cons r rest => rfl
    simp [convertExcelToJSON, he, h]

/-- Claim C1 witness: the quantified header-row characterization applied to
the concrete title-block sheet. -/
theorem c1_header_discovery_witness :
    isHeaderRow (demoTitleSheet.getD 2 []) = true ∧
      ∀ t, t < 2 → isHeaderRow (demoTitleSheet.getD t []) = false := by
  have h := c1_header_discovery.2.2.1 demoTitleSheet 2 (by decide)
  exact ⟨h.2.2.1, fun t ht => h.2.2.2 t ht⟩

/-! ### HeaderSet invariants (C2) -/

/-- Claim C2 counterexample: importing a sheet whose header row is
`["NAME", "name", "Email", ""]` succeeds, yet the returned header set contains
the two distinct entries `"NAME"` and `"name"` which coincide after
case/whitespace normalization, and the empty header cell is named
`"Unknown"` — not `"Unknown_3"` — so both the no-duplicates invariant and the
`Unknown_<index>` naming stated by the claim fail on the code. -/
theorem c2_counterexample :
    processExcelData (convertExcelToJSON dupHeaderSheet).1 =
        some (["NAME".toList, "name".toList, "Email".toList, "Unknown".toList],
          [[("NAME".toList, JVal.vstr "a".toList),
            ("name".toList, JVal.vstr "b".toList),
            ("Email".toList, JVal.vstr "c".toList),
            ("Unknown".toList, JVal.vstr "d".toList)]])
    ∧ normCaseWs "NAME".toList = normCaseWs "name".toList
    ∧ "NAME".toList ≠ "name".toList
    ∧ "Unknown_3".toList ∉
        ["NAME".toList, "name".toList, "Email".toList, "Unknown".toList] := by
  refine ⟨by decide, by decide, by decide, by decide⟩

lemma map_fst_objInsert (a : List (List Char × JVal)) (k : List Char)
    (v : JVal) :
    (objInsert a k v).map Prod.fst =
      if a.any (fun p => p.1 = k) then a.map Prod.fst
      else a.map Prod.fst ++ [k] := by
  unfold objInsert
  by_cases h : a.any (fun p => p.1 = k)
  · rw [if_pos h, if_pos h, List.map_map]
    apply List.map_congr_left
    intro p _
    by_cases hp : p.1 = k
    · simp [hp]
    · simp [hp]
  · rw [if_neg h, if_neg h, List.map_append]
    rfl

lemma any_key_eq (a : List (List Char × JVal)) (k : List Char) :
    (a.any (fun p => p.1 = k)) = ((a.map Prod.fst).any (fun x => x = k)) := by
  induction a with
  | nil => rfl
  | cons p rest ih => simp only [List.any_cons, List.map_cons, ih]

lemma buildRowAux_keys (l : List (Nat × List Char)) :
    ∀ (acc acc' : List (List Char × JVal)) (g g' : Nat → JVal),
      acc.map Prod.fst = acc'.map Prod.fst →
      ((l.foldl (fun a p =>
          objInsert a
            (if p.2.isEmpty then "Unknown_".toList ++ natToStr p.1 else p.2)
            (g p.1)) acc).map Prod.fst)
      = ((l.foldl (fun a p =>
          objInsert a
            (if p.2.isEmpty then "Unknown_".toList ++ natToStr p.1 else p.2)
            (g' p.1)) acc').map Prod.fst) := by
  induction l with
  | nil => intro acc acc' g g' h; simpa using h
  | cons p rest ih =>
    intro acc acc' g g' h
    simp only [List.foldl_cons]
    apply ih
    rw [map_fst_objInsert, map_fst_objInsert, any_key_eq, any_key_eq, h]

lemma buildRow_keys (headers : List (List Char)) (row row' : List JVal) :
    (buildRow headers row).map Prod.fst = (buildRow headers row').map Prod.fst := by
  unfold buildRow
  exact buildRowAux_keys headers.enum [] []
    (fun i => cleanValue (getCell row i)) (fun i => cleanValue (getCell row' i))
    rfl

/-- Claim C2 (amended): the importer performs no duplicate-elimination after
case/whitespace normalization and names empty header cells `"Unknown"` (only
headers that clean to the empty string get `Unknown_<index>`); what does hold
is the key-set invariant: every returned record has exactly the returned
header list as its key list. -/
theorem c2_amended_keysets (rows : List (List JVal))
    (hdrs : List (List Char)) (recs : List (List (List Char × JVal)))
    (h : processExcelData (convertExcelToJSON rows).1 = some (hdrs, recs)) :
    ∀ r ∈ recs, r.map Prod.fst = hdrs := by
  by_cases he : rows.isEmpty
  · rw [convertExcelToJSON] at h
    simp [he, processExcelData] at h
  · have he' : rows.isEmpty = false := by simpa using he
    have hconv : (convertExcelToJSON rows).1
        = ((rows.drop ((findHeaderRowIdx rows).getD 0 + 1)).map
            (buildRow ((rows.getD ((findHeaderRowIdx rows).getD 0) []).map
              cleanHeader))).filter isValidRowObj := by
      simp [convertExcelToJSON, he']
    set hs := (rows.getD ((findHeaderRowIdx rows).getD 0) []).map cleanHeader
      with hhs
    set L := (rows.drop ((findHeaderRowIdx rows).getD 0 + 1)).map (buildRow hs)
      with hL
    rw [hconv] at h
    unfold processExcelData at h
    rcases hm : (L.filter isValidRowObj).filter isValidRowObj with _ | ⟨r₀, rest⟩
    · rw [hm] at h; exact absurd h (by simp)
    · rw [hm] at h
      simp only [Option.some.injEq, Prod.mk.injEq] at h
      have h1 : hdrs = r₀.map Prod.fst := h.1.symm
      have h2 : recs = r₀ :: rest := h.2.symm
      have hmemL : ∀ x ∈ r₀ :: rest, x ∈ L := by
        intro x hx
        have : x ∈ (L.filter isValidRowObj).filter isValidRowObj := hm ▸ hx
        exact List.mem_of_mem_filter (List.mem_of_mem_filter this)
      intro r hr
      rw [h2] at hr
      obtain ⟨row, _, hrw⟩ := List.mem_map.mp (hmemL r hr)
      obtain ⟨row₀, _, hrw₀⟩ := List.mem_map.mp (hmemL r₀ (by simp))
      rw [h1, ← hrw, ← hrw₀]
      exact buildRow_keys hs row row₀

/-- Claim C2 witness: the key-set theorem applied to a concrete import. -/
theorem c2_amended_keysets_witness :
    [("A".toList, JVal.vstr "1".toList), ("B".toList, JVal.vstr "2".toList),
        ("C".toList, JVal.vstr "3".toList)].map Prod.fst =
      ["A".toList, "B".toList, "C".toList] :=
  c2_amended_keysets plainSheet ["A".toList, "B".toList, "C".toList]
    [[("A".toList, JVal.vstr "1".toList), ("B".toList, JVal.vstr "2".toList),
      ("C".toList, JVal.vstr "3".toList)]] (by decide)
    [("A".toList, JVal.vstr "1".toList), ("B".toList, JVal.vstr "2".toList),
      ("C".toList, JVal.vstr "3".toList)] (by decide)

/-! ### Field reconciliation claims (C6, C7) -/

/-- Claim C6 counterexample: for the token "Expiration Date" and the column
"Expiration_Date", the normalized-exact stage (priority 1) finds nothing,
because normalization strips whitespace but not underscores
("expirationdate" vs "expiration_date"); the app-level auto-mapper leaves the
token unmapped (empty string). -/
theorem c6_counterexample :
    appAutoMapFields ["[Expiration Date]".toList] ["Expiration_Date".toList] =
        [("[Expiration Date]".toList, [])]
    ∧ exactStage ["Expiration_Date".toList]
        (normalizeFld (importerCleanField "[Expiration Date]".toList)) =
      none := by
  exact ⟨by decide, by decide⟩

/-- Claim C6 (amended): the importer's reconciler does map the token
"Expiration Date" to the column "Expiration_Date", but through the priority-3
category/keyword fallback — the priority-1 normalized-exact match and the
priority-2 substring match both fail — while the app-level auto-mapper leaves
the token unmapped. -/
theorem c6_amended_category_match :
    findBestColumnMatch ["Expiration_Date".toList]
        (importerCleanField "[Expiration Date]".toList) =
      some "Expiration_Date".toList
    ∧ exactStage ["Expiration_Date".toList]
        (normalizeFld (importerCleanField "[Expiration Date]".toList)) = none
    ∧ partialStage ["Expiration_Date".toList]
        (normalizeFld (importerCleanField "[Expiration Date]".toList)) = none
    ∧ appAutoMapFields ["[Expiration Date]".toList]
        ["Expiration_Date".toList] =
      [("[Expiration Date]".toList, [])] := by
  refine ⟨by decide, by decide, by decide, by decide⟩

/-- Claim C7 counterexample: with headers ["Cellar", "Mobile"] — no exact or
substring match for "customer phone number" — the fallback returns "Cellar"
(the keyword "cell" is tried before "mobile"), not "Mobile". -/
theorem c7_counterexample :
    exactStage ["Cellar".toList, "Mobile".toList]
        (normalizeFld "customer phone number".toList) = none
    ∧ partialStage ["Cellar".toList, "Mobile".toList]
        (normalizeFld "customer phone number".toList) = none
    ∧ findBestColumnMatch ["Cellar".toList, "Mobile".toList]
        "customer phone number".toList = some "Cellar".toList
    ∧ ("Cellar".toList : List Char) ≠ "Mobile".toList := by
  refine ⟨by decide, by decide, by decide, by decide⟩

lemma find?_unique {α : Type} (p : α → Bool) (l : List α) (a : α)
    (ha : a ∈ l) (hpa : p a = true)
    (huniq : ∀ b ∈ l, p b = true → b = a) :
    l.find? p = some a := by
  induction l with
  | nil => simp at ha
  | cons c rest ih =>
    by_cases hc : p c = true
    · have : c = a := huniq c (by simp) hc
      subst this
      simp [List.find?_cons_of_pos _ hc]
    · have hca : a ∈ rest := by
        rcases List.mem_cons.mp ha with rfl | h
        · exact absurd hpa hc
        · exact h
      rw [List.find?_cons_of_neg _ hc]
      exact ih hca (fun b hb hpb => huniq b (List.mem_cons_of_mem _ hb) hpb)

/-- Claim C7 (amended): the token "customer phone number" classifies into the
phone category; provided no exact or substring match exists and "Mobile" is
the only header containing a phone keyword, the fallback maps the token to
"Mobile".  (The fallback tries the keywords in a fixed order and returns the
first matching header, so another phone-keyword header such as "Cellar" can
win instead — see the counterexample.) -/
theorem c7_amended_phone_fallback (headers : List (List Char))
    (hmem : "Mobile".toList ∈ headers)
    (hex : exactStage headers
      (normalizeFld "customer phone number".toList) = none)
    (hpar : partialStage headers
      (normalizeFld "customer phone number".toList) = none)
    (honly : ∀ h ∈ headers, h ≠ "Mobile".toList →
      ∀ v ∈ phoneVariations, containsSub v (toLowerJS h) = false) :
    findBestColumnMatch headers "customer phone number".toList =
      some "Mobile".toList := by
  have hnone : ∀ v ∈ ["phone".toList, "telephone".toList, "cell".toList],
      headers.find? (fun h => containsSub v (toLowerJS h)) = none := by
    intro v hv
    apply List.find?_eq_none.mpr
    intro h hh
    by_cases hM : h = "Mobile".toList
    · subst hM
      fin_cases hv <;> decide
    · have hvp : v ∈ phoneVariations := by fin_cases hv <;> decide
      simp [honly h hh hM v hvp]
  have hmob : headers.find?
      (fun h => containsSub "mobile".toList (toLowerJS h)) =
      some "Mobile".toList := by
    apply find?_unique _ _ _ hmem (by decide)
    intro b hb hpb
    by_contra hbne
    have := honly b hb hbne "mobile".toList (by decide)
    rw [this] at hpb
    exact absurd hpb (by simp)
  have hfe : findBestColumnMatch headers "customer phone number".toList
      = fuzzyStage headers (normalizeFld "customer phone number".toList)
          commonMappings := by
    unfold findBestColumnMatch
    rw [if_neg (by decide), hex, hpar]
  rw [hfe]
  have hnf : normalizeFld "customer phone number".toList =
      "customerphonenumber".toList := by decide
  rw [hnf]
  have h1 : containsSub "fullname".toList "customerphonenumber".toList =
      false := by decide
  have h2 : containsSub "firstname".toList "customerphonenumber".toList =
      false := by decide
  have h3 : containsSub "lastname".toList "customerphonenumber".toList =
      false := by decide
  have h4 : containsSub "email".toList "customerphonenumber".toList =
      false := by decide
  have h5 : containsSub "phone".toList "customerphonenumber".toList =
      true := by decide
  have hp := hnone "phone".toList (by simp)
  have ht := hnone "telephone".toList (by simp)
  have hc := hnone "cell".toList (by simp)
  simp only [commonMappings, fuzzyStage, h1, h2, h3, h4, h5,
    Bool.false_eq_true, if_false, if_true, List.findSome?_cons, hp, ht, hc,
    hmob]

/-- Claim C7 witness: the phone fallback applied to concrete headers. -/
theorem c7_amended_phone_fallback_witness :
    findBestColumnMatch
        ["Full Name".toList, "Email".toList, "Mobile".toList]
        "customer phone number".toList = some "Mobile".toList :=
  c7_amended_phone_fallback
    ["Full Name".toList, "Email".toList, "Mobile".toList]
    (by decide) (by decide) (by decide) (by decide)

/-! ### Phone formatting (C8) -/

/-- Claim C8: phone formatting strips non-digits; exactly 10 digits format as
(AAA) BBB-CCCC, exactly 11 digits with leading 1 as +1 (AAA) BBB-CCCC, and
any other digit count leaves the input unchanged; the concrete examples of
the spec evaluate as stated, and validation flags digit counts outside 10-15
as implausible. -/
theorem c8_phone_formatting :
    (∀ p : List Char,
      ((p.filter Char.isDigit).length = 10 →
        formatPhone p =
          '(' :: (p.filter Char.isDigit).take 3 ++ ") ".toList ++
            ((p.filter Char.isDigit).drop 3).take 3 ++
            '-' :: (p.filter Char.isDigit).drop 6) ∧
      ((p.filter Char.isDigit).length = 11 ∧
          (p.filter Char.isDigit).getD 0 ' ' = '1' →
        formatPhone p =
          "+1 (".toList ++ ((p.filter Char.isDigit).drop 1).take 3 ++
            ") ".toList ++ ((p.filter Char.isDigit).drop 4).take 3 ++
            '-' :: (p.filter Char.isDigit).drop 7) ∧
      ((p.filter Char.isDigit).length ≠ 10 →
        ¬((p.filter Char.isDigit).length = 11 ∧
          (p.filter Char.isDigit).getD 0 ' ' = '1') →
        formatPhone p = p))
    ∧ formatPhone "7725551234".toList = "(772) 555-1234".toList
    ∧ formatPhone "17725551234".toList = "+1 (772) 555-1234".toList
    ∧ formatPhone "12345".toList = "12345".toList
    ∧ isValidPhone "12345".toList = false
    ∧ (∀ p : List Char,
        (p.filter Char.isDigit).length < 10 ∨
          15 < (p.filter Char.isDigit).length →
        isValidPhone p = false) := by
  refine ⟨?_, by decide, by decide, by decide, by decide, ?_⟩
  · intro p
    refine ⟨?_, ?_, ?_⟩
    · intro h
      have hne : p.isEmpty = false := by
        cases p with
        | nil => simp at h
        | cons c cs => rfl
      simp [formatPhone, hne, h]
    · intro h
      have hne : p ≠ [] := by
        intro he; subst he; simp at h
      simp only [formatPhone]
      rw [if_neg (by simp [List.isEmpty_iff, hne]),
        if_neg (by omega), if_pos h]
    · intro h1 h2
      by_cases hq : p = []
      · subst hq; rfl
      · simp only [formatPhone]
        rw [if_neg (by simp [List.isEmpty_iff, hq]), if_neg h1, if_neg h2]
  · intro p hp
    cases hq : p.isEmpty with
    | true => simp [isValidPhone, hq]
    | false =>
      simp only [isValidPhone, hq, Bool.false_eq_true, if_false,
        decide_eq_false_iff_not]
      omega

/-- Claim C8 witness: the 10-digit case of the formatting theorem applied to
a concrete input containing separators. -/
theorem c8_phone_formatting_witness :
    formatPhone "772-555-1234".toList = "(772) 555-1234".toList := by
  have h := (c8_phone_formatting.1 "772-555-1234".toList).1 (by decide)
  rw [h]
  decide

/-! ### Name formatting (C9) -/

lemma mcReplF_id : ∀ (fuel : Nat) (b : Bool) (s : List Char),
    mcReplF fuel b s = s := by
  intro fuel
  induction fuel with
  | zero => intro b s; rfl
  | succ n ih =>
    intro b s
    match s with
    | [] => rfl
    | [c1] => simp [mcReplF, ih]
    | [c1, c2] => simp [mcReplF, ih]
    | c1 :: c2 :: c3 :: rest =>
      simp only [mcReplF]
      split
      · simp [ih]
      · simp [ih]

lemma opReplF_id : ∀ (fuel : Nat) (b : Bool) (s : List Char),
    opReplF fuel b s = s := by
  intro fuel
  induction fuel with
  | zero => intro b s; rfl
  | succ n ih =>
    intro b s
    match s with
    | [] => rfl
    | [c1] => simp [opReplF, ih]
    | [c1, c2] => simp [opReplF, ih]
    | c1 :: c2 :: c3 :: rest =>
      simp only [opReplF]
      split
      · simp [ih]
      · simp [ih]

/-- Claim C9 (code bug): `formatName` lower-cases the value and title-cases
each word, but its `\bMc(\w)` → `'Mc$1'` and `\bO'(\w)` → `"O'$1"` replaces
rewrite every match to exactly the matched text — they are identities — so
"MCDONALD" renders as "Mcdonald" and "o'connor" as "O'connor", not the
"McDonald"/"O'Connor" capitalization promised by the code's own comments and
by the claim. -/
theorem c9_formatName_mc_noop :
    formatName "MCDONALD".toList = "Mcdonald".toList
    ∧ formatName "MCDONALD".toList ≠ "McDonald".toList
    ∧ formatName "o'connor smith".toList = "O'connor Smith".toList
    ∧ (∀ (b : Bool) (s : List Char), mcRepl b s = s)
    ∧ (∀ (b : Bool) (s : List Char), opRepl b s = s) := by
  refine ⟨by decide, by decide, by decide,
    fun b s => mcReplF_id _ b s, fun b s => opReplF_id _ b s⟩

/-! ### Serial dates (C5) -/

/-- Claim C5: substituting a date-classified field whose record value is the
number 45000 renders the long-form date "March 15, 2023" — the
spreadsheet-serial interpretation under the 25569-day epoch offset — and not
the literal number, for every host date parser. -/
theorem c5_serial_date (jsParse : List Char → Option CivilDate)
    (fieldName : List Char) (h : appIsDateField fieldName = true) :
    formatFieldValue jsParse (JVal.vnum 45000) fieldName =
        renderLongDate (civilFromDays (45000 - 25569))
    ∧ formatFieldValue jsParse (JVal.vnum 45000) fieldName =
        "March 15, 2023".toList
    ∧ formatFieldValue jsParse (JVal.vnum 45000) fieldName ≠
        "45000".toList := by
  have he : formatFieldValue jsParse (JVal.vnum 45000) fieldName =
      renderLongDate (civilFromDays (45000 - 25569)) := by
    unfold formatFieldValue
    simp [h, serialGuard]
  have hval : renderLongDate (civilFromDays (45000 - 25569)) =
      "March 15, 2023".toList := by decide
  exact ⟨he, by rw [he, hval], by rw [he, hval]; decide⟩

/-- Claim C5 witness: the serial-date theorem applied at a concrete field
name and host parser. -/
theorem c5_serial_date_witness :
    formatFieldValue (fun _ => none) (JVal.vnum 45000)
        "Expiration Date".toList = "March 15, 2023".toList :=
  (c5_serial_date (fun _ => none) "Expiration Date".toList (by decide)).2.1

/-! ### String-level lemmas for the amended substitution claims -/

lemma isPrefixOf_self_append (p t : List Char) :
    p.isPrefixOf (p ++ t) = true := by
  induction p with
  | nil => cases t <;> rfl
  | cons c cs ih => simp [List.isPrefixOf_cons₂, ih]

lemma containsSub_here (p t : List Char) : containsSub p (p ++ t) = true := by
  cases p with
  | nil =>
    cases t with
    | nil => rfl
    | cons c cs => simp [containsSub]
  | cons c cs => simp [containsSub, isPrefixOf_self_append (c :: cs) t]

lemma containsSub_append_left (p x s : List Char)
    (h : containsSub p s = true) : containsSub p (x ++ s) = true := by
  induction x with
  | nil => simpa using h
  | cons c cs ih => simp [containsSub, ih]

lemma containsSub_middle (p x y : List Char) :
    containsSub p (x ++ p ++ y) = true := by
  have h := containsSub_append_left p x (p ++ y) (containsSub_here p y)
  simpa [List.append_assoc] using h

lemma expandRepl_noDollar (m pre post : List Char) :
    ∀ (r : List Char), '$' ∉ r → expandRepl m pre post r = r := by
  intro r
  induction r with
  | nil => intro _; rfl
  | cons c cs ih =>
    intro h
    have hc : ¬(c = '$') := fun hh => h (by simp [hh])
    have hrec := ih (fun hm => h (List.mem_cons_of_mem _ hm))
    cases cs with
    | nil => rw [expandRepl.eq_2, if_neg hc, expandRepl.eq_1]
    | cons c2 r' => rw [expandRepl.eq_3, if_neg hc, hrec]

lemma replAux_skip (pat rep : List Char) :
    ∀ (x pre t : List Char),
      replAux pat rep x.length pre (x ++ t) = replAux pat rep 0 (pre ++ x) t := by
  intro x
  induction x with
  | nil => intro pre t; simp
  | cons c cs ih =>
    intro pre t
    show replAux pat rep (cs.length + 1) pre (c :: (cs ++ t)) = _
    simp only [replAux]
    rw [ih (pre ++ [c]) t]
    simp [List.append_assoc]

lemma replAux_nomatch (pat rep : List Char) (c : Char) (cs pre : List Char)
    (h : pat.isPrefixOf (c :: cs) = false) :
    replAux pat rep 0 pre (c :: cs) = c :: replAux pat rep 0 (pre ++ [c]) cs := by
  simp only [replAux]
  rw [if_neg]
  simp [h]

lemma replAux_match (pat rep : List Char) (hpat : pat ≠ []) (hnd : '$' ∉ rep)
    (pre t : List Char) :
    replAux pat rep 0 pre (pat ++ t) = rep ++ replAux pat rep 0 (pre ++ pat) t := by
  cases pat with
  | nil => exact absurd rfl hpat
  | cons c p' =>
    show replAux (c :: p') rep 0 pre (c :: (p' ++ t)) = _
    simp only [replAux]
    rw [if_pos ?hcond]
    case hcond =>
      constructor
      · exact isPrefixOf_self_append (c :: p') t
      · simp
    have hdrop : (c :: (p' ++ t)).drop (c :: p').length = t := by
      simp only [List.length_cons, List.drop_succ_cons]
      exact List.drop_left p' t
    rw [hdrop, expandRepl_noDollar _ _ _ rep hnd]
    congr 1
    have hskip := replAux_skip (c :: p') rep p' (pre ++ [c]) t
    have hlen : (c :: p').length - 1 = p'.length := by simp
    rw [hlen, hskip]
    congr 1
    simp [List.append_assoc]

/-! ### The per-field replacement step and the fold over unique fields -/

lemma replaceFieldsStep_eval (jsParse : List Char → Option CivilDate)
    (cd : List (List Char × JVal)) (mapping : List (List Char × List Char))
    (st : List Char × List ReplEntry) (f : List Char) :
    replaceFieldsStep jsParse cd mapping st f =
      (replaceAllJS f
          (if (lookupMapping mapping f).isEmpty
            then "[UNMAPPED: ".toList ++ stripFieldBrackets f ++ [']']
            else formatValueMC jsParse
              (getCustomerValue cd (lookupMapping mapping f))
              (stripFieldBrackets f) (lookupMapping mapping f)) st.1,
        st.2 ++ [⟨f,
          if (lookupMapping mapping f).isEmpty then RStatus.unmapped
          else if jvalTruthy (getCustomerValue cd (lookupMapping mapping f))
            then RStatus.replaced else RStatus.missing⟩]) := by
  unfold replaceFieldsStep
  by_cases h : (lookupMapping mapping f).isEmpty
  · simp [h]
  · simp [h]

lemma fold_replace_log (jsParse : List Char → Option CivilDate)
    (cd : List (List Char × JVal)) (mapping : List (List Char × List Char)) :
    ∀ (F : List (List Char)) (st : List Char × List ReplEntry),
      (F.foldl (replaceFieldsStep jsParse cd mapping) st).2
        = st.2 ++ F.map (fun f =>
            ⟨f, if (lookupMapping mapping f).isEmpty then RStatus.unmapped
                else if jvalTruthy (getCustomerValue cd
                    (lookupMapping mapping f))
                  then RStatus.replaced else RStatus.missing⟩) := by
  intro F
  induction F with
  | nil => intro st; simp
  | cons f F' ih =>
    intro st
    simp only [List.foldl_cons, List.map_cons]
    rw [replaceFieldsStep_eval, ih]
    simp

/-! ### Deduplication lemmas -/

lemma dedup_aux_mem (x : List Char) :
    ∀ (l acc : List (List Char)),
      (x ∈ l.foldl (fun a y => if y ∈ a then a else a ++ [y]) acc ↔
        x ∈ acc ∨ x ∈ l) := by
  intro l
  induction l with
  | nil => intro acc; simp
  | cons y l' ih =>
    intro acc
    simp only [List.foldl_cons]
    by_cases hy : y ∈ acc
    · rw [if_pos hy, ih]
      constructor
      · rintro (h | h)
        · exact Or.inl h
        · exact Or.inr (by simp [h])
      · rintro (h | h)
        · exact Or.inl h
        · rcases List.mem_cons.mp h with rfl | h2
          exacts [Or.inl hy, Or.inr h2]
    · rw [if_neg hy, ih]
      constructor
      · rintro (h | h)
        · rcases List.mem_append.mp h with h1 | h1
          · exact Or.inl h1
          · exact Or.inr (by simpa using Or.inl (by simpa using h1))
        · exact Or.inr (by simp [h])
      · rintro (h | h)
        · exact Or.inl (List.mem_append.mpr (Or.inl h))
        · rcases List.mem_cons.mp h with rfl | h2
          · exact Or.inl (List.mem_append.mpr (Or.inr (by simp)))
          · exact Or.inr h2

lemma mem_dedupFirst (x : List Char) (l : List (List Char)) :
    x ∈ dedupFirst l ↔ x ∈ l := by
  unfold dedupFirst
  rw [dedup_aux_mem]
  simp

lemma dedup_aux_nodup :
    ∀ (l acc : List (List Char)), acc.Nodup →
      (l.foldl (fun a y => if y ∈ a then a else a ++ [y]) acc).Nodup := by
  intro l
  induction l with
  | nil => intro acc h; simpa using h
  | cons y l' ih =>
    intro acc h
    simp only [List.foldl_cons]
    by_cases hy : y ∈ acc
    · rw [if_pos hy]; exact ih acc h
    · rw [if_neg hy]
      refine ih _ ?_
      rw [List.nodup_append]
      refine ⟨h, List.nodup_singleton y, ?_⟩
      intro a ha hmem
      have : a = y := by simpa using hmem
      exact hy (this ▸ ha)

lemma nodup_dedupFirst (l : List (List Char)) : (dedupFirst l).Nodup :=
  dedup_aux_nodup l [] (by simp)

lemma nodup_split_not_mem {α : Type} {s t : List α} {a : α}
    (h : (s ++ a :: t).Nodup) : a ∉ s ∧ a ∉ t := by
  rw [List.nodup_append] at h
  obtain ⟨h1, h2, h3⟩ := h
  constructor
  · intro ha
    exact h3 ha (List.mem_cons_self a t)
  · exact (List.nodup_cons.mp h2).1

/-! ### Bracket-freedom helpers -/

lemma bracketFree_append {x y : List Char} (hx : bracketFree x)
    (hy : bracketFree y) : bracketFree (x ++ y) := by
  intro c hc
  rcases List.mem_append.mp hc with h | h
  exacts [hx c h, hy c h]

lemma noDollar_append {x y : List Char} (hx : noDollar x)
    (hy : noDollar y) : noDollar (x ++ y) := by
  intro h
  rcases List.mem_append.mp h with h | h
  exacts [hx h, hy h]

/-! ### Tag stripping and extraction on bracket-free text -/

lemma stripTagsAux_bf :
    ∀ (s : List Char) (st : Option (List Char)),
      (∀ c ∈ s, c ≠ '[' ∧ c ≠ ']') →
      (∀ acc, st = some acc → ∀ c ∈ acc, c ≠ '[' ∧ c ≠ ']') →
      ∀ c ∈ stripTagsAux st s, c ≠ '[' ∧ c ≠ ']' := by
  intro s
  induction s with
  | nil =>
    intro st hs hst c hc
    cases st with
    | none => simp [stripTagsAux] at hc
    | some acc =>
      rw [show stripTagsAux (some acc) [] = '<' :: acc.reverse from rfl] at hc
      rcases List.mem_cons.mp hc with rfl | h2
      · exact ⟨by decide, by decide⟩
      · exact hst acc rfl c (by simpa using h2)
  | cons d ds ih =>
    intro st hs hst c hc
    have hds : ∀ c ∈ ds, c ≠ '[' ∧ c ≠ ']' := fun e he => hs e (by simp [he])
    cases st with
    | none =>
      by_cases hd : d = '<'
      · rw [show stripTagsAux none (d :: ds) = stripTagsAux (some []) ds by
            simp [stripTagsAux, hd]] at hc
        refine ih (some []) hds ?_ c hc
        intro acc h e he
        injection h with h
        subst h
        simp at he
      · rw [show stripTagsAux none (d :: ds) = d :: stripTagsAux none ds by
            simp [stripTagsAux, hd]] at hc
        rcases List.mem_cons.mp hc with rfl | h2
        · exact hs c (by simp)
        · exact ih none hds (fun a h => nomatch h) c h2
    | some acc =>
      have hacc : ∀ c ∈ acc, c ≠ '[' ∧ c ≠ ']' := hst acc rfl
      by_cases hd : d = '>'
      · by_cases hemp : acc.isEmpty
        · rw [show stripTagsAux (some acc) (d :: ds)
              = '<' :: d :: stripTagsAux none ds by
              simp [stripTagsAux, hd, hemp]] at hc
          rcases List.mem_cons.mp hc with rfl | h2
          · exact ⟨by decide, by decide⟩
          · rcases List.mem_cons.mp h2 with rfl | h3
            · subst hd; exact ⟨by decide, by decide⟩
            · exact ih none hds (fun a h => nomatch h) c h3
        · rw [show stripTagsAux (some acc) (d :: ds)
              = ' ' :: stripTagsAux none ds by
              simp [stripTagsAux, hd, hemp]] at hc
          rcases List.mem_cons.mp hc with rfl | h2
          · exact ⟨by decide, by decide⟩
          · exact ih none hds (fun a h => nomatch h) c h2
      · rw [show stripTagsAux (some acc) (d :: ds)
            = stripTagsAux (some (d :: acc)) ds by
            simp [stripTagsAux, hd]] at hc
        refine ih (some (d :: acc)) hds ?_ c hc
        intro a h e he
        injection h with h
        subst h
        rcases List.mem_cons.mp he with rfl | h3
        · exact hs e (by simp)
        · exact hacc e h3

lemma scan2Aux_outside_nil :
    ∀ (s : List Char), (∀ c ∈ s, c ≠ '[' ∧ c ≠ ']') →
      scan2Aux .outside s = [] := by
  intro s
  induction s with
  | nil => intro _; rfl
  | cons c cs ih =>
    intro h
    have hc : isBracket c = false := by
      obtain ⟨h1, h2⟩ := h c (by simp)
      simp [isBracket, h1, h2]
    rw [show scan2Aux .outside (c :: cs)
        = if isBracket c then scan2Aux (.brun [c]) cs
          else scan2Aux .outside cs from rfl, hc]
    simp only [Bool.false_eq_true, if_false]
    exact ih (fun e he => h e (by simp [he]))

lemma isPrefixOf_cons_ne {a b : Char} {as bs : List Char} (h : a ≠ b) :
    (a :: as).isPrefixOf (b :: bs) = false := by
  have hab : (a == b) = false := beq_eq_false_iff_ne.mpr h
  simp [List.isPrefixOf, hab]

/-! ### The greedy capture of the space-anchored regexes -/

lemma greedySplit0_cons (c : Char) (cs : List Char) :
    greedySplit0 (c :: cs) =
      (if c = '\\' then none
       else
         match greedySplit0 cs with
         | some p => some (c :: p.1, p.2)
         | none =>
           if c = ']' ∧ cs.head? = some ' ' then some ([], cs.tail)
           else none) := rfl

lemma greedySplit0_none :
    ∀ (s : List Char), ']' ∉ s → greedySplit0 s = none := by
  intro s
  induction s with
  | nil => intro _; rfl
  | cons c cs ih =>
    intro h
    have hc : c ≠ ']' := fun he => h (by simp [he])
    have hcs : ']' ∉ cs := fun he => h (by simp [he])
    by_cases hb : c = '\\'
    · simp [greedySplit0, hb]
    · simp [greedySplit0, hb, ih hcs, hc]

lemma greedySplit0_exact :
    ∀ (X : List Char), ']' ∉ X → '\\' ∉ X → ∀ (y : List Char), ']' ∉ y →
      greedySplit0 (X ++ ']' :: ' ' :: y) = some (X, y) := by
  intro X
  induction X with
  | nil =>
    intro _ _ y hy
    have h1 : ']' ∉ (' ' :: y) := by
      intro h
      rcases List.mem_cons.mp h with h | h
      · exact absurd h (by decide)
      · exact hy h
    show greedySplit0 (']' :: ' ' :: y) = some ([], y)
    rw [greedySplit0_cons, if_neg (by decide),
      greedySplit0_none (' ' :: y) h1]
    simp
  | cons e X' ih =>
    intro hXr hXb y hy
    have he : e ≠ '\\' := fun h => hXb (by simp [h])
    show greedySplit0 (e :: (X' ++ ']' :: ' ' :: y)) = some (e :: X', y)
    rw [greedySplit0_cons, if_neg he,
      ih (fun h => hXr (by simp [h])) (fun h => hXb (by simp [h])) y hy]

lemma greedySplit0_isSome :
    ∀ (X : List Char), '\\' ∉ X → ∀ (y : List Char),
      ∃ Z w, greedySplit0 (X ++ ']' :: ' ' :: y) = some (Z, w) ∧
        X.length ≤ Z.length := by
  intro X
  induction X with
  | nil =>
    intro _ y
    cases hin : greedySplit0 (' ' :: y) with
    | some p =>
      refine ⟨']' :: p.1, p.2, ?_, by simp⟩
      show greedySplit0 (']' :: ' ' :: y) = some (']' :: p.1, p.2)
      rw [greedySplit0_cons, if_neg (by decide), hin]
    | none =>
      refine ⟨[], y, ?_, by simp⟩
      show greedySplit0 (']' :: ' ' :: y) = some ([], y)
      rw [greedySplit0_cons, if_neg (by decide), hin]
      simp
  | cons e X' ih =>
    intro hXb y
    have he : e ≠ '\\' := fun h => hXb (by simp [h])
    obtain ⟨Z, w, hgs, hlen⟩ := ih (fun h => hXb (by simp [h])) y
    refine ⟨e :: Z, w, ?_, by simpa using Nat.succ_le_succ hlen⟩
    show greedySplit0 (e :: (X' ++ ']' :: ' ' :: y)) = some (e :: Z, w)
    rw [greedySplit0_cons, if_neg he, hgs]

/-! ### The merge-field scan -/

lemma mfScanF_nil : ∀ fuel, mfScanF fuel [] = [] := by
  intro fuel
  cases fuel <;> rfl

lemma mfScanF_no_lb :
    ∀ (s : List Char) (fuel : Nat), '[' ∉ s → mfScanF fuel s = [] := by
  intro s
  induction s with
  | nil => intro fuel _; exact mfScanF_nil fuel
  | cons c cs ih =>
    intro fuel h
    cases fuel with
    | zero => rfl
    | succ f =>
      have hcs : '[' ∉ cs := fun he => h (by simp [he])
      by_cases hc : c = ' '
      · subst hc
        cases cs with
        | nil => simp [mfScanF]
        | cons d t =>
          have hd : d ≠ '[' := fun he => hcs (by simp [he])
          rw [show mfScanF (f + 1) (' ' :: d :: t) = mfScanF f (d :: t) by
            simp [mfScanF, hd]]
          exact ih f hcs
      · rw [show mfScanF (f + 1) (c :: cs) = mfScanF f cs by
          simp [mfScanF, hc]]
        exact ih f hcs

lemma mfScanF_skip :
    ∀ (a : List Char), '[' ∉ a →
      ∀ (rest : List Char) (fuel : Nat),
        (∀ d t, rest = d :: t → d ≠ '[') →
        mfScanF (a.length + fuel) (a ++ rest) = mfScanF fuel rest := by
  intro a
  induction a with
  | nil => intro _ rest fuel _; simp
  | cons c a' ih =>
    intro h rest fuel hrest
    have ha' : '[' ∉ a' := fun he => h (by simp [he])
    rw [show (c :: a').length + fuel = (a'.length + fuel) + 1 by
      simp only [List.length_cons]; omega]
    have step : mfScanF ((a'.length + fuel) + 1) ((c :: a') ++ rest)
        = mfScanF (a'.length + fuel) (a' ++ rest) := by
      rw [List.cons_append]
      by_cases hcsp : c = ' '
      · subst hcsp
        cases ha : a' ++ rest with
        | nil =>
          simp [mfScanF, mfScanF_nil]
        | cons d t =>
          have hd : d ≠ '[' := by
            cases a' with
            | nil =>
              simp only [List.nil_append] at ha
              exact hrest d t ha
            | cons e a'' =>
              have hde : d = e := by
                rw [List.cons_append] at ha
                injection ha with h1 _
                exact h1.symm
              subst hde
              exact fun he => ha' (by rw [← he]; exact List.mem_cons_self d a'')
          simp [mfScanF, hd]
      · simp [mfScanF, hcsp]
    rw [step]
    exact ih ha' rest fuel hrest

lemma mfScanF_token (n b : List Char) (hn : n ≠ []) (hnr : ']' ∉ n)
    (hnb : '\\' ∉ n) (hbr : ']' ∉ b) :
    ∀ fuel, mfScanF (fuel + 1) (spacedTok n ++ b)
      = spacedTok n :: mfScanF fuel b := by
  intro fuel
  have hshape : spacedTok n ++ b = ' ' :: '[' :: (n ++ ']' :: ' ' :: b) := by
    simp [spacedTok]
  rw [hshape]
  have hgs : greedySplit0 (n ++ ']' :: ' ' :: b) = some (n, b) :=
    greedySplit0_exact n hnr hnb b hbr
  have hne : n.isEmpty = false := by
    cases n with
    | nil => exact absurd rfl hn
    | cons _ _ => rfl
  simp [mfScanF, hgs, hne, spacedTok]

lemma scan1_single (a n b : List Char) (ha : '[' ∉ a) (hn : n ≠ [])
    (hnr : ']' ∉ n) (hnb : '\\' ∉ n) (hbl : '[' ∉ b) (hbr : ']' ∉ b) :
    scan1 (a ++ spacedTok n ++ b) = [spacedTok n] := by
  show mfScanF (a ++ spacedTok n ++ b).length (a ++ spacedTok n ++ b)
      = [spacedTok n]
  rw [List.append_assoc, List.length_append]
  rw [mfScanF_skip a ha (spacedTok n ++ b) (spacedTok n ++ b).length
    (fun d t hdt => by
      rw [show spacedTok n ++ b
          = ' ' :: ('[' :: (n ++ ']' :: [' ']) ++ b) from rfl] at hdt
      injection hdt with h1 _
      rw [← h1]
      decide)]
  have hK : 1 ≤ (spacedTok n ++ b).length := by
    simp only [spacedTok, List.length_append, List.length_cons]
    omega
  rw [show (spacedTok n ++ b).length
      = ((spacedTok n ++ b).length - 1) + 1 from by omega]
  rw [mfScanF_token n b hn hnr hnb hbr]
  rw [mfScanF_no_lb b _ hbl]

lemma stripFieldBrackets_spaced (n : List Char) :
    stripFieldBrackets (spacedTok n) = n := by
  show stripFieldBrackets (' ' :: '[' :: (n ++ ']' :: [' '])) = n
  rw [show stripFieldBrackets (' ' :: '[' :: (n ++ ']' :: [' ']))
      = dropTrailClose ((' ' :: '[' :: (n ++ ']' :: [' '])).drop 2) by
      simp [stripFieldBrackets, List.isPrefixOf]]
  rw [show (' ' :: '[' :: (n ++ ']' :: [' '])).drop 2
      = n ++ ']' :: [' '] from rfl]
  unfold dropTrailClose
  rw [show (n ++ ']' :: [' ']).reverse = ' ' :: ']' :: n.reverse by simp]
  rw [if_pos (by simp [List.isPrefixOf])]
  simp

/-! ### Global replace of one spaced merge field -/

lemma replAux_id_sp (p' rep : List Char) :
    ∀ (s pre : List Char), '[' ∉ s →
      replAux (' ' :: '[' :: p') rep 0 pre s = s := by
  intro s
  induction s with
  | nil => intro pre _; rfl
  | cons c cs ih =>
    intro pre h
    have hnp : (' ' :: '[' :: p').isPrefixOf (c :: cs) = false := by
      by_cases hc : c = ' '
      · subst hc
        cases cs with
        | nil => rfl
        | cons d t =>
          have hd : d ≠ '[' := fun he => h (by simp [he])
          simp [List.isPrefixOf, beq_eq_false_iff_ne.mpr (Ne.symm hd)]
      · simp [List.isPrefixOf, beq_eq_false_iff_ne.mpr (Ne.symm hc)]
    rw [replAux_nomatch _ _ _ _ _ hnp]
    rw [ih (pre ++ [c]) (fun he => h (by simp [he]))]

lemma replAux_append_sp (p' rep : List Char) :
    ∀ (a : List Char), '[' ∉ a →
      ∀ (rest pre : List Char), (∀ d t, rest = d :: t → d ≠ '[') →
        replAux (' ' :: '[' :: p') rep 0 pre (a ++ rest)
          = a ++ replAux (' ' :: '[' :: p') rep 0 (pre ++ a) rest := by
  intro a
  induction a with
  | nil => intro _ rest pre _; simp
  | cons c a' ih =>
    intro h rest pre hrest
    have ha' : '[' ∉ a' := fun he => h (by simp [he])
    have hnp : (' ' :: '[' :: p').isPrefixOf ((c :: a') ++ rest) = false := by
      rw [List.cons_append]
      by_cases hc : c = ' '
      · subst hc
        cases ha : a' ++ rest with
        | nil => rfl
        | cons d t =>
          have hd : d ≠ '[' := by
            cases a' with
            | nil =>
              simp only [List.nil_append] at ha
              exact hrest d t ha
            | cons e a'' =>
              have hde : d = e := by
                rw [List.cons_append] at ha
                injection ha with h1 _
                exact h1.symm
              subst hde
              exact fun he => ha' (by rw [← he]; exact List.mem_cons_self d a'')
          simp [List.isPrefixOf, beq_eq_false_iff_ne.mpr (Ne.symm hd)]
      · simp [List.isPrefixOf, beq_eq_false_iff_ne.mpr (Ne.symm hc)]
    rw [List.cons_append]
    rw [replAux_nomatch _ _ _ _ _ (by rw [← List.cons_append]; exact hnp)]
    rw [ih ha' rest (pre ++ [c]) hrest]
    simp [List.append_assoc]

lemma replaceAll_single (n v a b : List Char) (ha : '[' ∉ a) (hb : '[' ∉ b)
    (hv : '$' ∉ v) :
    replaceAllJS (spacedTok n) v (a ++ spacedTok n ++ b) = a ++ v ++ b := by
  show replAux (spacedTok n) v 0 [] (a ++ spacedTok n ++ b) = a ++ v ++ b
  rw [List.append_assoc]
  rw [show spacedTok n = ' ' :: '[' :: (n ++ ']' :: [' ']) from rfl]
  rw [replAux_append_sp (n ++ ']' :: [' ']) v a ha
    ((' ' :: '[' :: (n ++ ']' :: [' '])) ++ b) []
    (fun d t hdt => by
      rw [List.cons_append] at hdt
      injection hdt with h1 _
      rw [← h1]
      decide)]
  rw [replAux_match (' ' :: '[' :: (n ++ ']' :: [' '])) v (by simp) hv
    ([] ++ a) b]
  rw [replAux_id_sp (n ++ ']' :: [' ']) v b _ hb]
  simp [List.append_assoc]

lemma dedupFirst_single (x : List Char) : dedupFirst [x] = [x] := by
  simp [dedupFirst]

lemma replaceFields_single (jsParse : List Char → Option CivilDate)
    (cd : List (List Char × JVal)) (mapping : List (List Char × List Char))
    (a n b : List Char) (ha : '[' ∉ a) (hn : n ≠ []) (hnr : ']' ∉ n)
    (hnb : '\\' ∉ n) (hbl : '[' ∉ b) (hbr : ']' ∉ b) (v : List Char)
    (hv : v = (if (lookupMapping mapping (spacedTok n)).isEmpty
      then "[UNMAPPED: ".toList ++ n ++ [']']
      else formatValueMC jsParse
        (getCustomerValue cd (lookupMapping mapping (spacedTok n))) n
        (lookupMapping mapping (spacedTok n))))
    (hvd : '$' ∉ v) :
    replaceFields jsParse (a ++ spacedTok n ++ b) cd mapping
      = (a ++ v ++ b,
        [⟨spacedTok n,
          if (lookupMapping mapping (spacedTok n)).isEmpty
            then RStatus.unmapped
            else if jvalTruthy (getCustomerValue cd
                (lookupMapping mapping (spacedTok n)))
              then RStatus.replaced else RStatus.missing⟩]) := by
  unfold replaceFields
  rw [scan1_single a n b ha hn hnr hnb hbl hbr, dedupFirst_single]
  rw [show List.foldl (replaceFieldsStep jsParse cd mapping)
      (a ++ spacedTok n ++ b, ([] : List ReplEntry)) [spacedTok n]
      = replaceFieldsStep jsParse cd mapping
        (a ++ spacedTok n ++ b, []) (spacedTok n) from rfl]
  rw [replaceFieldsStep_eval, stripFieldBrackets_spaced]
  rw [← hv]
  rw [show (a ++ spacedTok n ++ b, ([] : List ReplEntry)).1
      = a ++ spacedTok n ++ b from rfl]
  rw [replaceAll_single n v a b ha hbl hvd]
  simp

/-! ### The sentinel count -/

lemma sentScanF_nil (inner : List Char) :
    ∀ fuel, sentScanF inner fuel [] = 0 := by
  intro fuel
  cases fuel <;> rfl

lemma sentScanF_no_lb (inner : List Char) :
    ∀ (s : List Char) (fuel : Nat), '[' ∉ s → sentScanF inner fuel s = 0 := by
  intro s
  induction s with
  | nil => intro fuel _; exact sentScanF_nil inner fuel
  | cons c cs ih =>
    intro fuel h
    cases fuel with
    | zero => rfl
    | succ f =>
      have hcs : '[' ∉ cs := fun he => h (by simp [he])
      by_cases hc : c = ' '
      · subst hc
        cases cs with
        | nil => simp [sentScanF]
        | cons d t =>
          have hd : d ≠ '[' := fun he => hcs (by simp [he])
          rw [show sentScanF inner (f + 1) (' ' :: d :: t)
              = sentScanF inner f (d :: t) by simp [sentScanF, hd]]
          exact ih f hcs
      · rw [show sentScanF inner (f + 1) (c :: cs) = sentScanF inner f cs by
          simp [sentScanF, hc]]
        exact ih f hcs

lemma sentScanF_step_cases (inner : List Char) (f : Nat) (e : Char)
    (T : List Char) :
    sentScanF inner (f + 1) (e :: T) = sentScanF inner f T ∨
      1 ≤ sentScanF inner (f + 1) (e :: T) := by
  by_cases he : e = ' '
  · subst he
    cases T with
    | nil =>
      left
      rw [show sentScanF inner (f + 1) [' '] = 0 by simp [sentScanF]]
      rw [sentScanF_nil]
    | cons d t =>
      by_cases hd : d = '['
      · subst hd
        by_cases hp : inner.isPrefixOf t
        · cases hgs : greedySplit0 (t.drop inner.length) with
          | some p =>
            by_cases hemp : p.1.isEmpty
            · left
              simp [sentScanF, hp, hgs, hemp]
            · right
              rw [show sentScanF inner (f + 1) (' ' :: '[' :: t)
                  = 1 + sentScanF inner f p.2 by
                  simp [sentScanF, hp, hgs, hemp]]
              exact Nat.le_add_right 1 _
          | none =>
            left
            simp [sentScanF, hp, hgs]
        · left
          simp [sentScanF, hp]
      · left
        simp [sentScanF, hd]
  · left
    simp [sentScanF, he]

lemma sentScan_pos (inner : List Char) :
    ∀ (fuel : Nat) (s : List Char), s.length ≤ fuel →
      (∃ x X y, s = x ++ ' ' :: '[' :: (inner ++ (X ++ ']' :: ' ' :: y)) ∧
        X ≠ [] ∧ '\\' ∉ X) →
      1 ≤ sentScanF inner fuel s := by
  intro fuel
  induction fuel with
  | zero =>
    intro s hlen hex
    obtain ⟨x, X, y, hs, _, _⟩ := hex
    exfalso
    rw [hs, List.length_append] at hlen
    simp only [List.length_cons] at hlen
    omega
  | succ f ih =>
    intro s hlen hex
    obtain ⟨x, X, y, hs, hX, hXb⟩ := hex
    cases x with
    | nil =>
      simp only [List.nil_append] at hs
      subst hs
      have hpre : inner.isPrefixOf (inner ++ (X ++ ']' :: ' ' :: y)) = true :=
        isPrefixOf_self_append inner _
      have hdrop : (inner ++ (X ++ ']' :: ' ' :: y)).drop inner.length
          = X ++ ']' :: ' ' :: y := List.drop_left inner _
      obtain ⟨Z, w, hgs, hZlen⟩ := greedySplit0_isSome X hXb y
      have hZ : Z.isEmpty = false := by
        cases Z with
        | nil =>
          cases X with
          | nil => exact absurd rfl hX
          | cons _ _ => simp at hZlen
        | cons _ _ => rfl
      rw [show sentScanF inner (f + 1)
          (' ' :: '[' :: (inner ++ (X ++ ']' :: ' ' :: y)))
          = 1 + sentScanF inner f w by
          simp [sentScanF, hpre, hdrop, hgs, hZ]]
      exact Nat.le_add_right 1 _
    | cons e x' =>
      subst hs
      rw [List.cons_append]
      have hlen' :
          (x' ++ ' ' :: '[' :: (inner ++ (X ++ ']' :: ' ' :: y))).length
            ≤ f := by
        rw [List.cons_append, List.length_cons] at hlen
        omega
      rcases sentScanF_step_cases inner f e
        (x' ++ ' ' :: '[' :: (inner ++ (X ++ ']' :: ' ' :: y))) with h | h
      · rw [h]
        exact ih _ hlen' ⟨x', X, y, rfl, hX, hXb⟩
      · exact h

lemma sentScan_zero (inner : List Char) :
    ∀ (a : List Char), '[' ∉ a → ∀ (rest' : List Char) (fuel : Nat),
      inner.isPrefixOf rest' = false → '[' ∉ rest' →
      sentScanF inner (a.length + (fuel + 1)) (a ++ '[' :: rest') = 0 := by
  intro a
  induction a with
  | nil =>
    intro _ rest' fuel hpre hlb
    rw [show List.length ([] : List Char) + (fuel + 1) = fuel + 1 by simp]
    rw [show ([] : List Char) ++ '[' :: rest' = '[' :: rest' from rfl]
    rw [show sentScanF inner (fuel + 1) ('[' :: rest')
        = sentScanF inner fuel rest' by simp [sentScanF]]
    exact sentScanF_no_lb inner rest' fuel hlb
  | cons c a' ih =>
    intro h rest' fuel hpre hlb
    have ha' : '[' ∉ a' := fun he => h (by simp [he])
    rw [show (c :: a').length + (fuel + 1) = (a'.length + (fuel + 1)) + 1 by
      simp only [List.length_cons]; omega]
    rw [List.cons_append]
    have step : sentScanF inner ((a'.length + (fuel + 1)) + 1)
        (c :: (a' ++ '[' :: rest'))
        = sentScanF inner (a'.length + (fuel + 1)) (a' ++ '[' :: rest') := by
      by_cases hc : c = ' '
      · subst hc
        cases a' with
        | nil =>
          rw [show ([] : List Char) ++ '[' :: rest' = '[' :: rest' from rfl]
          simp [sentScanF, hpre]
        | cons e a'' =>
          rw [List.cons_append]
          have he : e ≠ '[' := fun hee => ha' (by simp [hee])
          simp [sentScanF, he]
      · simp [sentScanF, hc]
    rw [step]
    exact ih ha' rest' fuel hpre hlb

/-! ### Substitution round trip (C3) -/

/-- Claim C3 counterexample: the merge-field regex requires a space before
`[` and after `]`, so on the template "[Item]" — whose extracted,
fully-mapped token is "[Item]" — `replaceFields` matches nothing and
returns the template unchanged, and re-extracting placeholders from the
result yields the non-empty token set {"[Item]"}. -/
theorem c3_counterexample :
    (replaceFields jsParseNone "[Item]".toList
        [("Item".toList, JVal.vstr "Pizza".toList)]
        [("[Item]".toList, "Item".toList)]).1 = "[Item]".toList
    ∧ extractMergeFields (replaceFields jsParseNone "[Item]".toList
        [("Item".toList, JVal.vstr "Pizza".toList)]
        [("[Item]".toList, "Item".toList)]).1 = ["[Item]".toList]
    ∧ jvalTruthy (JVal.vstr "Pizza".toList) = true := by
  exact ⟨by decide, by decide, by decide⟩

/-- Claim C3 (amended): for a template of the form `a ++ " [n] " ++ b` whose
single merge field carries the flanking spaces the regex
`\ \[([^\\]+)\] ` requires, with bracket-free literal text around it, a
backslash-free field name, a mapped column, and a formatted value free of
brackets and dollars, substitution replaces the spaced field and
re-extraction from the result yields the empty token set. -/
theorem c3_roundtrip_amended (jsParse : List Char → Option CivilDate)
    (cd : List (List Char × JVal)) (mapping : List (List Char × List Char))
    (a n b : List Char) (ha : bracketFree a) (hn : n ≠ [])
    (hnbf : bracketFree n) (hnb : '\\' ∉ n) (hb : bracketFree b)
    (hm : (lookupMapping mapping (spacedTok n)).isEmpty = false)
    (hfv : bracketFree (formatValueMC jsParse
        (getCustomerValue cd (lookupMapping mapping (spacedTok n))) n
        (lookupMapping mapping (spacedTok n))))
    (hfd : noDollar (formatValueMC jsParse
        (getCustomerValue cd (lookupMapping mapping (spacedTok n))) n
        (lookupMapping mapping (spacedTok n)))) :
    extractMergeFields
      (replaceFields jsParse (a ++ spacedTok n ++ b) cd mapping).1 = [] := by
  have h1 := replaceFields_single jsParse cd mapping a n b
    (fun he => (ha '[' he).1 rfl) hn (fun he => (hnbf ']' he).2 rfl) hnb
    (fun he => (hb '[' he).1 rfl) (fun he => (hb ']' he).2 rfl)
    (formatValueMC jsParse
      (getCustomerValue cd (lookupMapping mapping (spacedTok n))) n
      (lookupMapping mapping (spacedTok n)))
    (by rw [if_neg (by simp [hm])]) hfd
  rw [show (replaceFields jsParse (a ++ spacedTok n ++ b) cd mapping).1
      = a ++ formatValueMC jsParse
          (getCustomerValue cd (lookupMapping mapping (spacedTok n))) n
          (lookupMapping mapping (spacedTok n)) ++ b by rw [h1]]
  have hbf : ∀ c ∈ a ++ formatValueMC jsParse
      (getCustomerValue cd (lookupMapping mapping (spacedTok n))) n
      (lookupMapping mapping (spacedTok n)) ++ b,
      c ≠ '[' ∧ c ≠ ']' := by
    intro c hc
    rcases List.mem_append.mp hc with hc | hc
    · rcases List.mem_append.mp hc with hc | hc
      exacts [ha c hc, hfv c hc]
    · exact hb c hc
  unfold extractMergeFields
  rw [show scan2 (stripTags (a ++ formatValueMC jsParse
      (getCustomerValue cd (lookupMapping mapping (spacedTok n))) n
      (lookupMapping mapping (spacedTok n)) ++ b)) = [] from
    scan2Aux_outside_nil _
      (stripTagsAux_bf _ none hbf (fun x h => nomatch h))]
  rfl

/-- Witness for the amended round-trip claim: the template
`"Hello [Item] !"` with the record `{Item: "Pizza"}` and the mapping
`{" [Item] " -> Item}` substitutes to `"HelloPizza!"`, which re-extracts no
merge fields. -/
theorem c3_roundtrip_amended_witness :
    extractMergeFields
      (replaceFields jsParseNone
        ("Hello".toList ++ spacedTok "Item".toList ++ "!".toList)
        [("Item".toList, JVal.vstr "Pizza".toList)]
        [(" [Item] ".toList, "Item".toList)]).1 = [] :=
  c3_roundtrip_amended jsParseNone
    [("Item".toList, JVal.vstr "Pizza".toList)]
    [(" [Item] ".toList, "Item".toList)]
    "Hello".toList "Item".toList "!".toList
    (by decide) (by decide) (by decide) (by decide) (by decide) (by decide)
    (by decide) (by decide)

/-! ### Unmapped-token handling (C4) -/

/-- Claim C4 counterexample: on the template "Hi [Name] !" with an empty
field mapping, the engine matches the spaced field " [Name] " and replaces
it — with the flanking spaces — by "[UNMAPPED: Name]", so the message
contains the unmapped sentinel; but the validation regex
`/ \[UNMAPPED: ([^\\]+)\] /` demands flanking spaces that the replacement
just consumed, so validation counts nothing and reports isValid = true,
refuting the claimed conjunction. -/
theorem c4_counterexample :
    (replaceFields jsParseNone "Hi [Name] !".toList [] []).1
      = "Hi[UNMAPPED: Name]!".toList
    ∧ containsSub "[UNMAPPED: Name]".toList
        (replaceFields jsParseNone "Hi [Name] !".toList [] []).1 = true
    ∧ (validateCustomization
        (replaceFields jsParseNone "Hi [Name] !".toList [] []).1)
      = { isValid := true, unreplacedFields := 0, missingFields := 0,
          unmappedFields := 0 } := by
  exact ⟨by decide, by decide, by decide⟩

/-- Claim C4 (amended): for a template `a ++ " [n] " ++ b` whose single
spaced merge field has no mapped column (bracket-free surroundings,
backslash- and dollar-free name), the substituted message always contains
the sentinel text `[UNMAPPED: n]`; and when the surrounding literals supply
a second flanking space on each side (`a` ends with a space, `b` starts
with one), the space-anchored validation regex can see the sentinel, the
unmapped count is at least one, and `isValid` is false. -/
theorem c4_unmapped_amended (jsParse : List Char → Option CivilDate)
    (cd : List (List Char × JVal)) (mapping : List (List Char × List Char))
    (a n b a0 b0 : List Char)
    (ha : '[' ∉ a) (hn : n ≠ []) (hnr : ']' ∉ n) (hnb : '\\' ∉ n)
    (hnd : '$' ∉ n) (hbl : '[' ∉ b) (hbr : ']' ∉ b)
    (hm : (lookupMapping mapping (spacedTok n)).isEmpty = true)
    (ha0 : a = a0 ++ [' ']) (hb0 : b = ' ' :: b0) :
    (replaceFields jsParse (a ++ spacedTok n ++ b) cd mapping).1
      = a ++ ("[UNMAPPED: ".toList ++ n ++ [']']) ++ b
    ∧ containsSub ("[UNMAPPED: ".toList ++ n ++ [']'])
        (replaceFields jsParse (a ++ spacedTok n ++ b) cd mapping).1 = true
    ∧ 1 ≤ (validateCustomization (replaceFields jsParse
        (a ++ spacedTok n ++ b) cd mapping).1).unmappedFields
    ∧ (validateCustomization (replaceFields jsParse
        (a ++ spacedTok n ++ b) cd mapping).1).isValid = false := by
  have hvd : '$' ∉ "[UNMAPPED: ".toList ++ n ++ [']'] := by
    intro hmem
    rcases List.mem_append.mp hmem with hmem | hmem
    · rcases List.mem_append.mp hmem with hmem | hmem
      · exact absurd hmem (by decide)
      · exact hnd hmem
    · exact absurd (List.mem_singleton.mp hmem) (by decide)
  have h1 := replaceFields_single jsParse cd mapping a n b ha hn hnr hnb
    hbl hbr ("[UNMAPPED: ".toList ++ n ++ [']'])
    (by rw [if_pos hm]) hvd
  have hmsg : (replaceFields jsParse (a ++ spacedTok n ++ b) cd mapping).1
      = a ++ ("[UNMAPPED: ".toList ++ n ++ [']']) ++ b := by rw [h1]
  have hshape : a ++ ("[UNMAPPED: ".toList ++ n ++ [']']) ++ b
      = a0 ++ ' ' :: '[' ::
          ("UNMAPPED: ".toList ++ (n ++ ']' :: ' ' :: b0)) := by
    subst ha0
    subst hb0
    rw [show ("[UNMAPPED: ".toList : List Char)
        = '[' :: "UNMAPPED: ".toList from rfl]
    simp [List.append_assoc]
  have hpos : 1 ≤ sentScan "UNMAPPED: ".toList
      (a ++ ("[UNMAPPED: ".toList ++ n ++ [']']) ++ b) :=
    sentScan_pos "UNMAPPED: ".toList
      (a ++ ("[UNMAPPED: ".toList ++ n ++ [']']) ++ b).length
      (a ++ ("[UNMAPPED: ".toList ++ n ++ [']']) ++ b)
      (le_refl _) ⟨a0, n, b0, hshape, hn, hnb⟩
  refine ⟨hmsg, ?_, ?_, ?_⟩
  · rw [hmsg]
    exact containsSub_middle _ a b
  · rw [hmsg]
    exact hpos
  · rw [hmsg]
    rw [show (validateCustomization
        (a ++ ("[UNMAPPED: ".toList ++ n ++ [']']) ++ b)).isValid
        = decide (sentScan "UNMAPPED: ".toList
            (a ++ ("[UNMAPPED: ".toList ++ n ++ [']']) ++ b) = 0
          ∧ sentScan "MISSING: ".toList
            (a ++ ("[UNMAPPED: ".toList ++ n ++ [']']) ++ b) = 0)
        from rfl]
    exact decide_eq_false (fun hcontra => absurd hcontra.1 (by omega))

/-- Witness for the amended unmapped claim: the template
`"Hello  [Name]  !"` (with the extra flanking spaces) and an empty mapping
render `"Hello [UNMAPPED: Name] !"`, which contains the sentinel, counts
one unmapped field, and fails validation. -/
theorem c4_unmapped_amended_witness :
    (replaceFields jsParseNone
        ("Hello ".toList ++ spacedTok "Name".toList ++ (' ' :: "!".toList))
        [] []).1
      = "Hello ".toList ++ ("[UNMAPPED: ".toList ++ "Name".toList ++ [']'])
          ++ (' ' :: "!".toList)
    ∧ containsSub ("[UNMAPPED: ".toList ++ "Name".toList ++ [']'])
        (replaceFields jsParseNone
          ("Hello ".toList ++ spacedTok "Name".toList ++ (' ' :: "!".toList))
          [] []).1 = true
    ∧ 1 ≤ (validateCustomization (replaceFields jsParseNone
        ("Hello ".toList ++ spacedTok "Name".toList ++ (' ' :: "!".toList))
        [] []).1).unmappedFields
    ∧ (validateCustomization (replaceFields jsParseNone
        ("Hello ".toList ++ spacedTok "Name".toList ++ (' ' :: "!".toList))
        [] []).1).isValid = false :=
  c4_unmapped_amended jsParseNone [] []
    "Hello ".toList "Name".toList (' ' :: "!".toList)
    "Hello".toList "!".toList
    (by decide) (by decide) (by decide) (by decide) (by decide) (by decide)
    (by decide) (by decide) (by decide) (by decide)

/-! ### Whitespace-only values and the EMPTY sentinel (C10) -/

/-- Claim C10 counterexample: on the template "[Note]" — whose extracted,
mapped token "[Note]" carries no flanking spaces — the space-anchored merge
regex matches nothing, so the whitespace-only value is never consulted: the
message is returned unchanged with no `[EMPTY: Note]` sentinel anywhere,
and the replacement log is empty rather than recording the token as
replaced. -/
theorem c10_counterexample :
    (replaceFields jsParseNone "[Note]".toList
        [("Note".toList, JVal.vstr "   ".toList)]
        [("[Note]".toList, "Note".toList)]).1 = "[Note]".toList
    ∧ (replaceFields jsParseNone "[Note]".toList
        [("Note".toList, JVal.vstr "   ".toList)]
        [("[Note]".toList, "Note".toList)]).2 = []
    ∧ containsSub "[EMPTY: Note]".toList
        (replaceFields jsParseNone "[Note]".toList
          [("Note".toList, JVal.vstr "   ".toList)]
          [("[Note]".toList, "Note".toList)]).1 = false := by
  exact ⟨by decide, by decide, by decide⟩

/-- Claim C10 (amended): for a template `a ++ " [n] " ++ b` whose single
spaced merge field is mapped to a column holding a non-empty
whitespace-only string, the substituted message contains the distinct
sentinel `[EMPTY: n]` (in place of the spaced field), the log records the
field with status replaced (the whitespace string is truthy), and since the
message's only `[` opens `EMPTY:` — which is neither `MISSING:` nor
`UNMAPPED:` — validation counts zero missing and zero unmapped fields and
reports isValid = true. -/
theorem c10_empty_sentinel (jsParse : List Char → Option CivilDate)
    (cd : List (List Char × JVal)) (mapping : List (List Char × List Char))
    (a n b w : List Char)
    (ha : '[' ∉ a) (hn : n ≠ []) (hnl : '[' ∉ n) (hnr : ']' ∉ n)
    (hnb : '\\' ∉ n) (hnd : '$' ∉ n) (hbl : '[' ∉ b) (hbr : ']' ∉ b)
    (hm : (lookupMapping mapping (spacedTok n)).isEmpty = false)
    (hw : getCustomerValue cd (lookupMapping mapping (spacedTok n))
      = JVal.vstr w)
    (hwne : w ≠ []) (hws : (jsTrim w).isEmpty = true) :
    (replaceFields jsParse (a ++ spacedTok n ++ b) cd mapping).1
      = a ++ ("[EMPTY: ".toList ++ n ++ [']']) ++ b
    ∧ containsSub ("[EMPTY: ".toList ++ n ++ [']'])
        (replaceFields jsParse (a ++ spacedTok n ++ b) cd mapping).1 = true
    ∧ (replaceFields jsParse (a ++ spacedTok n ++ b) cd mapping).2
      = [⟨spacedTok n, RStatus.replaced⟩]
    ∧ (validateCustomization (replaceFields jsParse
        (a ++ spacedTok n ++ b) cd mapping).1).missingFields = 0
    ∧ (validateCustomization (replaceFields jsParse
        (a ++ spacedTok n ++ b) cd mapping).1).unmappedFields = 0
    ∧ (validateCustomization (replaceFields jsParse
        (a ++ spacedTok n ++ b) cd mapping).1).isValid = true := by
  have hvd : '$' ∉ "[EMPTY: ".toList ++ n ++ [']'] := by
    intro hmem
    rcases List.mem_append.mp hmem with hmem | hmem
    · rcases List.mem_append.mp hmem with hmem | hmem
      · exact absurd hmem (by decide)
      · exact hnd hmem
    · exact absurd (List.mem_singleton.mp hmem) (by decide)
  have hv : ("[EMPTY: ".toList ++ n ++ [']'] : List Char)
      = (if (lookupMapping mapping (spacedTok n)).isEmpty
        then "[UNMAPPED: ".toList ++ n ++ [']']
        else formatValueMC jsParse
          (getCustomerValue cd (lookupMapping mapping (spacedTok n))) n
          (lookupMapping mapping (spacedTok n))) := by
    rw [if_neg (by simp [hm]), hw]
    simp only [formatValueMC]
    rw [if_pos hws]
  have h1 := replaceFields_single jsParse cd mapping a n b ha hn hnr hnb
    hbl hbr ("[EMPTY: ".toList ++ n ++ [']']) hv hvd
  have htr : jvalTruthy (getCustomerValue cd
      (lookupMapping mapping (spacedTok n))) = true := by
    rw [hw]
    simp [jvalTruthy, List.isEmpty_iff, hwne]
  have hmsg : (replaceFields jsParse (a ++ spacedTok n ++ b) cd mapping).1
      = a ++ ("[EMPTY: ".toList ++ n ++ [']']) ++ b := by rw [h1]
  have hlog : (replaceFields jsParse (a ++ spacedTok n ++ b) cd mapping).2
      = [⟨spacedTok n, RStatus.replaced⟩] := by
    rw [h1]
    simp [hm, htr]
  have hshape2 : a ++ ("[EMPTY: ".toList ++ n ++ [']']) ++ b
      = a ++ '[' :: ("EMPTY: ".toList ++ n ++ ']' :: b) := by
    rw [show ("[EMPTY: ".toList : List Char)
        = '[' :: "EMPTY: ".toList from rfl]
    simp [List.append_assoc]
  have hlbR : '[' ∉ "EMPTY: ".toList ++ n ++ ']' :: b := by
    intro hmem
    rcases List.mem_append.mp hmem with hmem | hmem
    · rcases List.mem_append.mp hmem with hmem | hmem
      · exact absurd hmem (by decide)
      · exact hnl hmem
    · rcases List.mem_cons.mp hmem with hmem | hmem
      · exact absurd hmem (by decide)
      · exact hbl hmem
  have hprefM : ("MISSING: ".toList).isPrefixOf
      ("EMPTY: ".toList ++ n ++ ']' :: b) = false := by
    rw [show ("MISSING: ".toList : List Char)
        = 'M' :: "ISSING: ".toList from rfl]
    rw [show ("EMPTY: ".toList ++ n ++ ']' :: b : List Char)
        = 'E' :: ("MPTY: ".toList ++ n ++ ']' :: b) from rfl]
    exact isPrefixOf_cons_ne (by decide)
  have hprefU : ("UNMAPPED: ".toList).isPrefixOf
      ("EMPTY: ".toList ++ n ++ ']' :: b) = false := by
    rw [show ("UNMAPPED: ".toList : List Char)
        = 'U' :: "NMAPPED: ".toList from rfl]
    rw [show ("EMPTY: ".toList ++ n ++ ']' :: b : List Char)
        = 'E' :: ("MPTY: ".toList ++ n ++ ']' :: b) from rfl]
    exact isPrefixOf_cons_ne (by decide)
  have hmf : sentScan "MISSING: ".toList
      (a ++ ("[EMPTY: ".toList ++ n ++ [']']) ++ b) = 0 := by
    rw [hshape2]
    show sentScanF "MISSING: ".toList
      (a ++ '[' :: ("EMPTY: ".toList ++ n ++ ']' :: b)).length
      (a ++ '[' :: ("EMPTY: ".toList ++ n ++ ']' :: b)) = 0
    rw [List.length_append, List.length_cons]
    exact sentScan_zero "MISSING: ".toList a ha _ _ hprefM hlbR
  have huf : sentScan "UNMAPPED: ".toList
      (a ++ ("[EMPTY: ".toList ++ n ++ [']']) ++ b) = 0 := by
    rw [hshape2]
    show sentScanF "UNMAPPED: ".toList
      (a ++ '[' :: ("EMPTY: ".toList ++ n ++ ']' :: b)).length
      (a ++ '[' :: ("EMPTY: ".toList ++ n ++ ']' :: b)) = 0
    rw [List.length_append, List.length_cons]
    exact sentScan_zero "UNMAPPED: ".toList a ha _ _ hprefU hlbR
  refine ⟨hmsg, ?_, hlog, ?_, ?_, ?_⟩
  · rw [hmsg]
    exact containsSub_middle _ a b
  · rw [hmsg]
    exact hmf
  · rw [hmsg]
    exact huf
  · rw [hmsg]
    rw [show (validateCustomization
        (a ++ ("[EMPTY: ".toList ++ n ++ [']']) ++ b)).isValid
        = decide (sentScan "UNMAPPED: ".toList
            (a ++ ("[EMPTY: ".toList ++ n ++ [']']) ++ b) = 0
          ∧ sentScan "MISSING: ".toList
            (a ++ ("[EMPTY: ".toList ++ n ++ [']']) ++ b) = 0)
        from rfl]
    rw [huf, hmf]
    decide

/-- Witness for the amended empty-sentinel claim: the template
`"Note: [Note] ."` (spaced field) with the record `{Note: "   "}` and the
mapping `{" [Note] " -> Note}` renders `"Note:[EMPTY: Note]."`, logs the
field as replaced, and passes validation with zero missing and unmapped
counts. -/
theorem c10_empty_sentinel_witness :
    (replaceFields jsParseNone
        ("Note:".toList ++ spacedTok "Note".toList ++ ".".toList)
        [("Note".toList, JVal.vstr "   ".toList)]
        [(" [Note] ".toList, "Note".toList)]).1
      = "Note:".toList ++ ("[EMPTY: ".toList ++ "Note".toList ++ [']'])
          ++ ".".toList
    ∧ containsSub ("[EMPTY: ".toList ++ "Note".toList ++ [']'])
        (replaceFields jsParseNone
          ("Note:".toList ++ spacedTok "Note".toList ++ ".".toList)
          [("Note".toList, JVal.vstr "   ".toList)]
          [(" [Note] ".toList, "Note".toList)]).1 = true
    ∧ (replaceFields jsParseNone
        ("Note:".toList ++ spacedTok "Note".toList ++ ".".toList)
        [("Note".toList, JVal.vstr "   ".toList)]
        [(" [Note] ".toList, "Note".toList)]).2
      = [⟨spacedTok "Note".toList, RStatus.replaced⟩]
    ∧ (validateCustomization (replaceFields jsParseNone
        ("Note:".toList ++ spacedTok "Note".toList ++ ".".toList)
        [("Note".toList, JVal.vstr "   ".toList)]
        [(" [Note] ".toList, "Note".toList)]).1).missingFields = 0
    ∧ (validateCustomization (replaceFields jsParseNone
        ("Note:".toList ++ spacedTok "Note".toList ++ ".".toList)
        [("Note".toList, JVal.vstr "   ".toList)]
        [(" [Note] ".toList, "Note".toList)]).1).unmappedFields = 0
    ∧ (validateCustomization (replaceFields jsParseNone
        ("Note:".toList ++ spacedTok "Note".toList ++ ".".toList)
        [("Note".toList, JVal.vstr "   ".toList)]
        [(" [Note] ".toList, "Note".toList)]).1).isValid = true :=
  c10_empty_sentinel jsParseNone
    [("Note".toList, JVal.vstr "   ".toList)]
    [(" [Note] ".toList, "Note".toList)]
    "Note:".toList "Note".toList ".".toList "   ".toList
    (by decide) (by decide) (by decide) (by decide) (by decide) (by decide)
    (by decide) (by decide) (by decide) (by decide) (by decide) (by decide)
